import Mathlib

/-!
Verification of the `nuc2not` markdown-to-Notion converter (Rust crate `md2notion`).

Shallow embedding conventions:

* Rust `String` values are modelled as `List Char` (`Str`).  Rust strings are
  UTF-8; a byte offset is a valid split point exactly when it lands on a
  character boundary, so a list of characters together with each character's
  UTF-8 byte width (`Char.utf8Size`, always between 1 and 4) models the byte
  structure that `String::len`, `is_char_boundary` and `split_at` observe.
* The `notion_client` `Block` struct is modelled by `Block`.  In the Rust type
  every `BlockType` variant embeds its payload struct and only the payloads of
  paragraph / quote / bulleted and numbered list item / table carry a
  `children` field; here the variant payloads are collected in `BlockData` and
  the optional `children` list is hoisted into a common field of `Block`.
  Variants whose Rust payload has no `children` field always carry `none`
  (the renderer never populates them), and the planner helpers
  (`block_has_deep_children`, `split_block_from_children`) read the field
  only for the four variants the Rust `match` names, exactly as the source
  matches on `bulleted_list_item.children` etc.  Unused metadata fields of
  `Block` (timestamps, archived, ...) are omitted; `id` and `has_children`
  are kept because the planner writes them.  Identifiers assigned by the
  remote service are modelled as natural numbers.
* The markdown AST (`markdown::mdast::Node`) is modelled by `MdNode` with one
  constructor per node kind the renderer inspects plus a catch-all
  `unsupported` for every kind the renderer's `_ =>` arm skips.  The parser
  `to_mdast` itself is an external crate and is out of scope: the model takes
  the parsed tree as input.
* `HashMap<String, _>` with only `insert` and `get` is modelled by an
  association list with replace-or-append insertion and first-match lookup.
* Rust methods taking `&mut self` are modelled by explicit state passing:
  a method returns the updated `State` next to its ordinary result.
* Network calls are modelled by oracles (for the retry wrappers) or by a
  success-mode identifier counter (for the submission planner), and every
  function that issues remote writes also returns the list of issued writes.
-/

namespace Nuc2Not

/-- Rust `String`, as its list of characters. -/
abbrev Str := List Char

/-- The `String::len` of a Rust string: total number of UTF-8 bytes. -/
def byteLen (s : Str) : Nat := (s.map Char.utf8Size).sum

/-- Longest prefix of the string whose byte length fits in `budget`, together
with the rest.  This is what `content.split_at(split_point)` computes in
`split_text_at_api_limit`: the source starts at byte offset 2000 and walks
backwards to the nearest character boundary, i.e. it splits at the largest
character boundary whose byte offset is at most the budget. -/
def takeWithin (budget : Nat) : Str → Str × Str
  | [] => ([], [])
  | c :: rest =>
    if c.utf8Size ≤ budget then
      let p := takeWithin (budget - c.utf8Size) rest
      (c :: p.1, p.2)
    else ([], c :: rest)

/-- `markdown::mdast::AlignKind` (table column alignment). -/
inductive AlignKind where
  | left
  | right
  | center
  | alignNone
deriving DecidableEq, Repr

/-- The fields of `mdast::Image` the renderer reads (`alt`, `url`). -/
structure MdImage where
  alt : Str
  url : Str
deriving DecidableEq, Repr

/-- The subset of `markdown::mdast::Node` consumed by the renderer.  Node
kinds the renderer's catch-all `_ =>` arm skips are collapsed into
`unsupported`.  Fields the code never reads (positions, titles, labels,
spread flags) are omitted. -/
inductive MdNode where
  | root (children : List MdNode)
  | blockQuote (children : List MdNode)
  | footnoteDefinition (identifier : Str) (children : List MdNode)
  | list (ordered : Bool) (start : Option Nat) (children : List MdNode)
  | listItem (children : List MdNode)
  | html (value : Str)
  | image (img : MdImage)
  | imageReference (identifier : Str)
  | code (lang : Option Str) (value : Str)
  | math (value : Str)
  | heading (depth : Nat) (children : List MdNode)
  | table (align : List AlignKind) (children : List MdNode)
  | tableRow (children : List MdNode)
  | tableCell (children : List MdNode)
  | thematicBreak
  | paragraph (children : List MdNode)
  | delete (children : List MdNode)
  | emphasis (children : List MdNode)
  | footnoteReference (identifier : Str)
  | inlineCode (value : Str)
  | inlineMath (value : Str)
  | link (url : Str) (children : List MdNode)
  | linkReference (identifier : Str) (children : List MdNode)
  | strong (children : List MdNode)
  | text (value : Str)
  | definition (identifier : Str) (url : Str)
  | unsupported
deriving Repr

/-- `mdast::Node::children()`: `Some` of the child list for container nodes,
`None` for leaves. -/
def MdNode.children? : MdNode → Option (List MdNode)
  | .root cs => some cs
  | .blockQuote cs => some cs
  | .footnoteDefinition _ cs => some cs
  | .list _ _ cs => some cs
  | .listItem cs => some cs
  | .heading _ cs => some cs
  | .table _ cs => some cs
  | .tableRow cs => some cs
  | .tableCell cs => some cs
  | .paragraph cs => some cs
  | .delete cs => some cs
  | .emphasis cs => some cs
  | .link _ cs => some cs
  | .linkReference _ cs => some cs
  | .strong cs => some cs
  | _ => Option.none

/-- Whether a node is `Node::Paragraph`, as matched by the list-item
renderers. -/
def MdNode.isParagraph : MdNode → Bool
  | .paragraph _ => true
  | _ => false

/-- `notion_client::objects::block::TextColor`, restricted to the values the
renderer produces. -/
inductive TextColor where
  | default
deriving DecidableEq, Repr

/-- `notion_client::objects::rich_text::TextColor`, restricted to the values
the renderer produces. -/
inductive RTColor where
  | default
  | gray
deriving DecidableEq, Repr

/-- `notion_client::objects::rich_text::Annotations`. -/
structure Annotations where
  bold : Bool := false
  italic : Bool := false
  strikethrough : Bool := false
  underline : Bool := false
  code : Bool := false
  color : RTColor := .default
deriving DecidableEq, Repr

/-- `notion_client::objects::rich_text::RichText`, restricted to the variants
the renderer produces.  A `Link { url }` payload is modelled by the `link`
field holding the url. -/
inductive RichText where
  | text (content : Str) (link : Option Str) (annotations : Option Annotations)
      (plain_text : Option Str) (href : Option Str)
  | equation (expression : Str) (annotations : Annotations) (plain_text : Str)
      (href : Option Str)
deriving DecidableEq, Repr

/-- The `content` field of a rich text span (`text.content`, or the equation
expression). -/
def RichText.content : RichText → Str
  | .text c _ _ _ _ => c
  | .equation e _ _ _ => e

/-- The `annotations` field of a rich text span. -/
def RichText.annotations? : RichText → Option Annotations
  | .text _ _ a _ _ => a
  | .equation _ a _ _ => some a

/-- The `href` field of a rich text span. -/
def RichText.href : RichText → Option Str
  | .text _ _ _ _ h => h
  | .equation _ _ _ h => h

/-- The `text.link` field of a rich text span (the url of its `Link`). -/
def RichText.linkUrl : RichText → Option Str
  | .text _ l _ _ _ => l
  | .equation _ _ _ _ => Option.none

/-- `notion_client` code language.  `render_code` feeds the fence's language
string through `serde_json::from_str`, defaulting to `PlainText`; that parse
is abstracted as `tagged` of the raw string (no claim depends on it). -/
inductive Language where
  | plain_text
  | tagged (s : Str)
deriving DecidableEq, Repr

/-- Language for a code fence: `PlainText` when no language string is given,
otherwise the (abstracted) parse of the language string. -/
def languageOf : Option Str → Language
  | Option.none => .plain_text
  | some s => .tagged s

/-- The per-variant payloads of `notion_client::objects::block::BlockType`,
restricted to the variants the renderer produces (plus `none`, which the
image-reference fallback produces).  The optional `children` lists of the
paragraph / quote / list item / table payloads are hoisted into
`Block.children`. -/
inductive BlockData where
  | none
  | paragraph (rich_text : List RichText) (color : Option TextColor)
  | heading_1 (rich_text : List RichText)
  | heading_2 (rich_text : List RichText)
  | heading_3 (rich_text : List RichText)
  | bulleted_list_item (rich_text : List RichText) (color : TextColor)
  | numbered_list_item (rich_text : List RichText) (color : TextColor)
  | quote (rich_text : List RichText) (color : TextColor)
  | callout (rich_text : List RichText) (icon : Str) (color : TextColor)
  | code (caption : List RichText) (rich_text : List RichText) (language : Language)
  | equation (expression : Str)
  | divider
  | image (url : Str)
  | table (table_width : Nat) (has_column_header : Bool) (has_row_header : Bool)
  | table_row (cells : List (List RichText))
deriving Repr

/-- `notion_client::objects::block::Block`: identifier and `has_children`
metadata (optional, absent on freshly rendered blocks), the variant payload,
and the hoisted optional children list. -/
inductive Block where
  | mk (id : Option Nat) (has_children : Option Bool) (data : BlockData)
      (children : Option (List Block))
deriving Repr

/-- The `id` field of a block. -/
def Block.id : Block → Option Nat
  | .mk i _ _ _ => i

/-- The `has_children` field of a block. -/
def Block.has_children : Block → Option Bool
  | .mk _ h _ _ => h

/-- The `block_type` payload of a block. -/
def Block.data : Block → BlockData
  | .mk _ _ d _ => d

/-- The (hoisted) optional children list of a block. -/
def Block.children : Block → Option (List Block)
  | .mk _ _ _ c => c

/-- Association-list insert modelling `HashMap::insert`: replace the binding
in place if the key is present, append otherwise. -/
def insertA (m : List (Str × α)) (k : Str) (v : α) : List (Str × α) :=
  match m with
  | [] => [(k, v)]
  | (k', v') :: rest =>
    if k' = k then (k, v) :: rest else (k', v') :: insertA rest k v

/-- Association-list lookup modelling `HashMap::get`. -/
def lookupA (m : List (Str × α)) (k : Str) : Option α :=
  match m with
  | [] => Option.none
  | (k', v') :: rest => if k' = k then some v' else lookupA rest k


namespace Md2Notion

/-- The deepest level of nesting allowed in an API request (`MAX_NESTING` in
`lib.rs`). -/
def MAX_NESTING : Nat := 1

/-- `ListVariation` from `lib.rs`. -/
inductive ListVariation where
  | none
  | bulleted
  | ordered
deriving DecidableEq, Repr

/-- The render `State` of `lib.rs`: current list kind, ordered-list start,
and the link / image reference-definition tables. -/
structure State where
  list : ListVariation
  ordered_start : Nat
  links : List (Str × Str)
  images : List (Str × MdImage)
deriving Repr

/-- `State::new`. -/
def State.new : State :=
  { list := .none, ordered_start := 1, links := [], images := [] }

/-- `State::split_text_at_api_limit`: split a content string into rich text
spans of at most 2000 bytes each, splitting only at character boundaries
(the byte-offset walk-back of the source is the greedy prefix `takeWithin`
computes), and give every span a copy of the style. -/
def State.split_text_at_api_limit (content : Str) (style : Annotations) : List RichText :=
  if byteLen content > 2000 then
    let p := takeWithin 2000 content
    RichText.text p.1 Option.none (some style) (some p.1) Option.none ::
      State.split_text_at_api_limit p.2 style
  else
    [RichText.text content Option.none (some style) (some content) Option.none]
termination_by content.length
decreasing_by
  have key : ∀ (b : Nat) (l : Str), ((takeWithin b l).2).length ≤ l.length := by
    intro b l
    induction l generalizing b with
    | nil => simp [takeWithin]
    | cons c rest ih =>
      simp only [takeWithin]
      split
      · simpa using Nat.le_succ_of_le (ih _)
      · simp
  cases content with
  | nil => simp [byteLen] at *
  | cons c rest =>
    have hc : c.utf8Size ≤ 2000 :=
      le_trans (Char.utf8Size_le_four c) (by omega)
    simp only [takeWithin, if_pos hc, List.length_cons]
    exact Nat.lt_succ_of_le (key _ rest)

/-- `State::render_text`: plain text becomes default-styled spans, split at
the API limit. -/
def State.render_text (_s : State) (value : Str) : List RichText :=
  State.split_text_at_api_limit value {}

/-- `State::make_into_rich_text`: concatenate the `Text` children and split
the result at the API limit under the given style. -/
def State.make_into_rich_text (children : List MdNode) (style : Annotations) : List RichText :=
  let content : Str :=
    (children.filterMap fun n => match n with
      | .text v => some v
      | _ => Option.none).flatten
  State.split_text_at_api_limit content style

/-- `State::render_strong`. -/
def State.render_strong (_s : State) (children : List MdNode) : List RichText :=
  State.make_into_rich_text children { bold := true }

/-- `State::render_emphasized`. -/
def State.render_emphasized (_s : State) (children : List MdNode) : List RichText :=
  State.make_into_rich_text children { italic := true }

/-- `State::render_deletion`. -/
def State.render_deletion (_s : State) (children : List MdNode) : List RichText :=
  State.make_into_rich_text children { strikethrough := true }

/-- `State::render_link`: the link text is the concatenation of the `Text`
children; the url is looked up in the link table by the link's *url* (a
quirk of the source) and falls back to the url itself. -/
def State.render_link (s : State) (url : Str) (children : List MdNode) : RichText :=
  let content : Str :=
    (children.filterMap fun n => match n with
      | .text v => some v
      | _ => Option.none).flatten
  let u := match lookupA s.links url with
    | some u => u
    | Option.none => url
  RichText.text content (some u) Option.none (some content) (some u)

/-- `State::render_linkref`: like a link, but the url is looked up by the
reference identifier and falls back to the identifier itself. -/
def State.render_linkref (s : State) (identifier : Str) (children : List MdNode) : RichText :=
  let content : Str :=
    (children.filterMap fun n => match n with
      | .text v => some v
      | _ => Option.none).flatten
  let u := match lookupA s.links identifier with
    | some u => u
    | Option.none => identifier
  RichText.text content (some u) Option.none (some content) (some u)

/-- `State::render_inline_code`. -/
def State.render_inline_code (_s : State) (value : Str) : RichText :=
  RichText.text value Option.none (some { code := true }) (some value) Option.none

/-- `State::render_inline_math`. -/
def State.render_inline_math (_s : State) (value : Str) : RichText :=
  RichText.equation value { code := true } value Option.none

/-- `State::render_noteref`: a footnote reference renders as gray text
carrying the footnote identifier, with no link. -/
def State.render_noteref (_s : State) (identifier : Str) : RichText :=
  RichText.text identifier Option.none (some { color := .gray }) (some identifier) Option.none

/-- `State::render_text_node`: dispatch for node kinds that become rich
text; `None` for all others. -/
def State.render_text_node (s : State) (n : MdNode) : Option (List RichText) :=
  match n with
  | .delete cs => some (s.render_deletion cs)
  | .emphasis cs => some (s.render_emphasized cs)
  | .footnoteReference iden => some [s.render_noteref iden]
  | .inlineCode v => some [s.render_inline_code v]
  | .inlineMath v => some [s.render_inline_math v]
  | .link url cs => some [s.render_link url cs]
  | .linkReference iden cs => some [s.render_linkref iden cs]
  | .strong cs => some (s.render_strong cs)
  | .text v => some (s.render_text v)
  | _ => Option.none

/-- `State::render_quote`: rich text from the quote's renderable text
children; no block children. -/
def State.render_quote (s : State) (children : List MdNode) : List Block :=
  let rich_text := (children.filterMap (s.render_text_node ·)).flatten
  [Block.mk Option.none Option.none (.quote rich_text .default) Option.none]

/-- `State::render_footnote`: a footnote definition renders as a callout
block with a note emoji icon. -/
def State.render_footnote (s : State) (children : List MdNode) : List Block :=
  let rich_text := (children.filterMap (s.render_text_node ·)).flatten
  [Block.mk Option.none Option.none (.callout rich_text "🗒️".toList .default) Option.none]

/-- `State::table_cell`: a cell's rich text from its renderable text
children. -/
def State.table_cell (s : State) (children : List MdNode) : List RichText :=
  (children.filterMap (s.render_text_node ·)).flatten

/-- `State::table_row`: one table-row block whose cells come from the row's
`TableCell` children. -/
def State.table_row (s : State) (children : List MdNode) : List Block :=
  let cells := children.filterMap fun n => match n with
    | .tableCell cs => some (s.table_cell cs)
    | _ => Option.none
  [Block.mk Option.none Option.none (.table_row cells) Option.none]

/-- `State::render_paragraph`: one paragraph block, no children. -/
def State.render_paragraph (s : State) (children : List MdNode) : List Block :=
  let rich_text := (children.filterMap (s.render_text_node ·)).flatten
  [Block.mk Option.none Option.none (.paragraph rich_text (some .default)) Option.none]

/-- `State::render_code`: one code block with the fence contents as a single
unstyled span. -/
def State.render_code (_s : State) (lang : Option Str) (value : Str) : List Block :=
  let rich_text := RichText.text value Option.none Option.none (some value) Option.none
  [Block.mk Option.none Option.none (.code [] [rich_text] (languageOf lang)) Option.none]

/-- `State::render_math`: one equation block. -/
def State.render_math (_s : State) (value : Str) : List Block :=
  [Block.mk Option.none Option.none (.equation value) Option.none]

/-- `State::render_html`: HTML passthrough becomes a plain-text code
block. -/
def State.render_html (_s : State) (value : Str) : List Block :=
  let rich_text := RichText.text value Option.none Option.none (some value) Option.none
  [Block.mk Option.none Option.none (.code [] [rich_text] .plain_text) Option.none]

/-- `State::render_image`: one external-url image block. -/
def State.render_image (_s : State) (img : MdImage) : List Block :=
  [Block.mk Option.none Option.none (.image img.url) Option.none]

/-- `State::render_image_ref`: if the identifier is in the image table,
render that image; otherwise produce a single block of type `None`. -/
def State.render_image_ref (s : State) (identifier : Str) : List Block :=
  match lookupA s.images identifier with
  | some img => s.render_image img
  | Option.none => [Block.mk Option.none Option.none .none Option.none]

/-- `State::render_divider`. -/
def State.render_divider (_s : State) : List Block :=
  [Block.mk Option.none Option.none .divider Option.none]

/-- `State::render_heading`: depth 1 and 2 map to headings 1 and 2, every
other depth to heading 3. -/
def State.render_heading (s : State) (depth : Nat) (children : List MdNode) : List Block :=
  let rich_text := (children.filterMap (s.render_text_node ·)).flatten
  let data : BlockData :=
    if depth = 1 then .heading_1 rich_text
    else if depth = 2 then .heading_2 rich_text
    else .heading_3 rich_text
  [Block.mk Option.none Option.none data Option.none]

/-- `State::collect_definitions`: rebuild the link table from the
`Definition` nodes and the image table from the `Image` nodes directly in
the sibling list (no recursion into children), replacing both tables. -/
def State.collect_definitions (s : State) (nodelist : List MdNode) : State :=
  let tables := nodelist.foldl
    (fun (t : List (Str × Str) × List (Str × MdImage)) n =>
      match n with
      | .image img => (t.1, insertA t.2 img.alt img)
      | .definition identifier url => (insertA t.1 identifier url, t.2)
      | _ => t)
    ([], [])
  { s with links := tables.1, images := tables.2 }

mutual

/-- `State::render_nodes`: collect the sibling list's reference definitions,
then render each node in order, threading the (mutable) state. -/
def State.render_nodes (s : State) (nodelist : List MdNode) : State × List Block :=
  State.render_nodes_go (s.collect_definitions nodelist) nodelist
termination_by ((sizeOf nodelist, 2) : Nat × Nat)

/-- The `flat_map` fold inside `State::render_nodes`, with the `&mut self`
state threaded left to right. -/
def State.render_nodes_go (s : State) (nodelist : List MdNode) : State × List Block :=
  match nodelist with
  | [] => (s, [])
  | n :: rest =>
    let r1 := State.render_node s n
    let r2 := State.render_nodes_go r1.1 rest
    (r2.1, r1.2 ++ r2.2)
termination_by ((sizeOf nodelist, 1) : Nat × Nat)

/-- `State::render_node`: dispatch over the node kind; unhandled kinds yield
no blocks.  Only the arms that call back into `render_nodes` (lists, list
items, tables) mutate the state. -/
def State.render_node (s : State) (n : MdNode) : State × List Block :=
  match n with
  | .blockQuote cs => (s, s.render_quote cs)
  | .footnoteDefinition _ cs => (s, s.render_footnote cs)
  | .list ordered start cs => State.begin_list s ordered start cs
  | .html v => (s, s.render_html v)
  | .image img => (s, s.render_image img)
  | .imageReference iden => (s, s.render_image_ref iden)
  | .code lang v => (s, s.render_code lang v)
  | .math v => (s, s.render_math v)
  | .heading depth cs => (s, s.render_heading depth cs)
  | .table align cs => State.begin_table s align cs
  | .tableRow cs => (s, s.table_row cs)
  | .thematicBreak => (s, s.render_divider)
  | .listItem cs => State.render_list_item s cs
  | .paragraph cs => (s, s.render_paragraph cs)
  | _ => (s, [])
termination_by ((sizeOf n, 0) : Nat × Nat)

/-- `State::begin_list`: clone the state, set the list kind (and start for
ordered lists), render the item children under the clone; the clone's
mutations are discarded (`self` is returned unchanged). -/
def State.begin_list (s : State) (ordered : Bool) (start : Option Nat)
    (children : List MdNode) : State × List Block :=
  let state := { s with
    list := if ordered then ListVariation.ordered else ListVariation.bulleted,
    ordered_start := match start with
      | some st => st
      | Option.none => s.ordered_start }
  (s, (State.render_nodes state children).2)
termination_by ((sizeOf children, 3) : Nat × Nat)

/-- `State::render_list_item`: bulleted rendering for `None` and `Bulleted`
list kinds, numbered rendering for `Ordered`. -/
def State.render_list_item (s : State) (children : List MdNode) : State × List Block :=
  match s.list with
  | .none => State.rendered_bullet_li s children
  | .bulleted => State.rendered_bullet_li s children
  | .ordered => State.render_numbered_li s children
termination_by ((sizeOf children, 4) : Nat × Nat)

/-- `State::render_numbered_li`: the first child supplies the item's rich
text when it is a paragraph (otherwise the rich text is empty and the first
child is dropped); the remaining children render as the block's children. -/
def State.render_numbered_li (s : State) (children : List MdNode) : State × List Block :=
  match children with
  | [] =>
    (s, [Block.mk Option.none Option.none (.numbered_list_item [] .default) Option.none])
  | first :: rest =>
    let rich_text : List RichText :=
      match first with
      | .paragraph cs => (cs.filterMap (s.render_text_node ·)).flatten
      | _ => []
    let r := State.render_nodes s rest
    (r.1, [Block.mk Option.none Option.none (.numbered_list_item rich_text .default)
      (some r.2)])
termination_by ((sizeOf children, 3) : Nat × Nat)

/-- `State::rendered_bullet_li`: bulleted counterpart of
`render_numbered_li`. -/
def State.rendered_bullet_li (s : State) (children : List MdNode) : State × List Block :=
  match children with
  | [] =>
    (s, [Block.mk Option.none Option.none (.bulleted_list_item [] .default) Option.none])
  | first :: rest =>
    let rich_text : List RichText :=
      match first with
      | .paragraph cs => (cs.filterMap (s.render_text_node ·)).flatten
      | _ => []
    let r := State.render_nodes s rest
    (r.1, [Block.mk Option.none Option.none (.bulleted_list_item rich_text .default)
      (some r.2)])
termination_by ((sizeOf children, 3) : Nat × Nat)

/-- `State::begin_table`: render the rows (mutating the state through
`render_nodes`), compute the table width as the largest rendered row's cell
count (at least 1), and attach the rows as the table block's children. -/
def State.begin_table (s : State) (align : List AlignKind)
    (children : List MdNode) : State × List Block :=
  let has_row_header := !align.isEmpty
  let r := State.render_nodes s children
  let longest : Nat := r.2.foldl
    (fun acc b => match b.data with
      | .table_row cells => max acc cells.length
      | _ => acc) 1
  (r.1, [Block.mk Option.none Option.none (.table longest false has_row_header)
    (some r.2)])
termination_by ((sizeOf children, 3) : Nat × Nat)

end

/-- `State::render`: render the root's children (the parser always hands the
renderer a `Root` node); a node without children yields no blocks. -/
def State.render (s : State) (tree : MdNode) : List Block :=
  match tree.children? with
  | some children => (State.render_nodes s children).2
  | Option.none => []

/-- `convert` from `lib.rs`.  The markdown parser `to_mdast` (an external
crate, infallible under the options used) is out of scope; the model takes
the parsed tree. -/
def convert (tree : MdNode) : List Block :=
  State.render State.new tree


/-- Children as read by the planner's depth check: the Rust `match` in
`block_has_deep_children` and `split_block_from_children` reads the
`children` field of exactly the bulleted / numbered list item, paragraph and
quote payloads and treats every other variant as `&None`. -/
def trackedKids (b : Block) : Option (List Block) :=
  match b.data with
  | .bulleted_list_item _ _ => b.children
  | .numbered_list_item _ _ => b.children
  | .paragraph _ _ => b.children
  | .quote _ _ => b.children
  | _ => Option.none

/-- `PageMaker::block_has_deep_children`: a block is "deep" when following
tracked children `MAX_NESTING` levels down still finds a block with
non-empty tracked children. -/
def PageMaker.block_has_deep_children (nesting : Nat) (b : Block) : Bool :=
  match hk : trackedKids b with
  | Option.none => false
  | Option.some kids =>
    if kids.isEmpty then false
    else if nesting == MAX_NESTING then true
    else kids.attach.any fun c => PageMaker.block_has_deep_children (nesting + 1) c.1
termination_by sizeOf b
decreasing_by
  simp_wf
  obtain ⟨i, hc2, d, ch⟩ := b
  have hlt := List.sizeOf_lt_of_mem c.2
  have hkid : ch = some kids := by
    unfold trackedKids at hk
    simp only [Block.children, Block.data] at hk
    cases d <;> simp_all
  subst hkid
  have hsome : sizeOf (some kids) = 1 + sizeOf kids := by simp
  simp only [Block.mk.sizeOf_spec]
  omega

/-- `split_block_from_children` (free function in `lib.rs`): when the block
has non-empty tracked children, return a copy with `has_children` forced to
`Some(false)` and the children stripped, together with the children;
otherwise return the block untouched. -/
def split_block_from_children (block : Block) : Block × Option (List Block) :=
  match hk : trackedKids block with
  | Option.none => (block, Option.none)
  | Option.some kids =>
    if kids.isEmpty then (block, Option.none)
    else (Block.mk block.id (some false) block.data Option.none, some kids)

/-- One write issued by the planner: an `append_block_children` call against
`parent`, anchored after `after` (or appended at the end when `none`), with
the given batch of blocks. -/
structure Write where
  parent : Nat
  after : Option Nat
  children : List Block
deriving Repr

mutual

/-- `PageMaker::append_children` in success mode: the remote service accepts
every write and assigns consecutive identifiers starting at `fresh` to the
blocks of each submitted batch, in submission order.  Returns the list of
issued writes and the next unassigned identifier. -/
def PageMaker.append_children (parent_id : Nat) (after_id : Option Nat)
    (to_be_appended : List Block) (fresh : Nat) : List Write × Nat :=
  PageMaker.append_loop parent_id after_id to_be_appended [] fresh
termination_by ((sizeOf to_be_appended, 1) : Nat × Nat)

/-- The `while !to_be_appended.is_empty()` loop of `append_children`,
carrying the current tranche.  A deep head is stripped, flushed with the
tranche, its children submitted under its fresh identifier, and the
remaining queue resubmitted anchored after it; a shallow head joins the
tranche, which is flushed at 100 blocks; a trailing non-empty tranche is
flushed at the end. -/
def PageMaker.append_loop (parent_id : Nat) (after : Option Nat) (queue : List Block)
    (current_tranche : List Block) (fresh : Nat) : List Write × Nat :=
  match queue with
  | [] =>
    if current_tranche.isEmpty then ([], fresh)
    else ([⟨parent_id, after, current_tranche⟩], fresh + current_tranche.length)
  | head :: rest =>
    if PageMaker.block_has_deep_children 0 head then
      match hs : split_block_from_children head with
      | (copy, maybe_children) =>
        let tranche1 := current_tranche ++ [copy]
        let fresh1 := fresh + tranche1.length
        let created_ids := (List.range tranche1.length).map (fresh + ·)
        let head_id := created_ids.getLast?.getD parent_id
        let r1 :=
          match maybe_children with
          | Option.some head_children =>
            PageMaker.append_children head_id Option.none head_children fresh1
          | Option.none => ([], fresh1)
        let r2 := PageMaker.append_children parent_id (some head_id) rest r1.2
        (⟨parent_id, after, tranche1⟩ :: (r1.1 ++ r2.1), r2.2)
    else
      let tranche1 := current_tranche ++ [head]
      if tranche1.length == 100 then
        let fresh1 := fresh + tranche1.length
        let created_ids := (List.range tranche1.length).map (fresh + ·)
        let after1 := match created_ids.getLast? with
          | some last => some last
          | Option.none => after
        let r := PageMaker.append_loop parent_id after1 rest [] fresh1
        (⟨parent_id, after, tranche1⟩ :: r.1, r.2)
      else
        PageMaker.append_loop parent_id after rest tranche1 fresh
termination_by ((sizeOf queue, 0) : Nat × Nat)
decreasing_by
  all_goals simp_wf
  all_goals first
    | (apply Prod.Lex.right; omega)
    | (apply Prod.Lex.left; omega)
    | (apply Prod.Lex.left
       have hkids : sizeOf head_children < sizeOf head := by
         obtain ⟨i, hc2, d, ch⟩ := head
         unfold split_block_from_children at hs
         split at hs
         · simp_all
         case _ kids' hk =>
           have hkid : ch = some kids' := by
             unfold trackedKids at hk
             simp only [Block.children, Block.data] at hk
             cases d <;> simp_all
           subst hkid
           split at hs
           · simp_all
           · simp only [Prod.mk.injEq, Option.some.injEq] at hs
             have hsome : sizeOf (some kids') = 1 + sizeOf kids' := by simp
             rw [← hs.2]
             simp only [Block.mk.sizeOf_spec]
             omega
       omega)

end

/-- A model of the remote store for replaying the planner's writes: each
parent identifier maps to the ordered list of (assigned identifier, block as
submitted) attached directly under it. -/
def Store := Nat → List (Nat × Block)

/-- The store of a freshly created page: nothing attached anywhere. -/
def emptyStore : Store := fun _ => []

/-- Insert `new` right after the entry with identifier `a`; when no entry
matches, the batch lands at the end. -/
def insertAfterEntry (l : List (Nat × Block)) (a : Nat) (new : List (Nat × Block)) :
    List (Nat × Block) :=
  match l with
  | [] => new
  | p :: rest => if p.1 = a then p :: (new ++ rest) else p :: insertAfterEntry rest a new

/-- Notion's `append_block_children` placement: with no `after` the batch is
appended at the end, otherwise it is inserted right after the anchor. -/
def insertAfterList (l : List (Nat × Block)) (after : Option Nat)
    (new : List (Nat × Block)) : List (Nat × Block) :=
  match after with
  | Option.none => l ++ new
  | some a => insertAfterEntry l a new

/-- Replay one write against the store: assign the next consecutive
identifiers to the batch and place the batch under the write's parent. -/
def applyWrite (st : Store × Nat) (w : Write) : Store × Nat :=
  let assigned := (List.range w.children.length).map (st.2 + ·)
  let new := assigned.zip w.children
  (fun q => if q = w.parent then insertAfterList (st.1 w.parent) w.after new else st.1 q,
   st.2 + w.children.length)

/-- Replay a list of writes in order. -/
def replay (ws : List Write) (st : Store × Nat) : Store × Nat := ws.foldl applyWrite st

/-- The shape of a block tree: variant payloads plus children, with the
planner's bookkeeping metadata (`id`, `has_children`, `Some []` versus
`None` children) erased. -/
inductive Tree where
  | mk (data : BlockData) (children : List Tree)
deriving Repr

/-- The child list of a shape tree. -/
def Tree.kids : Tree → List Tree
  | .mk _ k => k

/-- The shape of a rendered block: its payload and the shapes of its inline
children. -/
def blockShape (b : Block) : Tree :=
  match b with
  | .mk _ _ data children =>
    Tree.mk data (match children with
      | some kids => kids.attach.map fun c => blockShape c.1
      | Option.none => [])
termination_by sizeOf b
decreasing_by
  have hlt := List.sizeOf_lt_of_mem c.2
  have hsome : sizeOf (some kids) = 1 + sizeOf kids := by simp
  simp only [Block.mk.sizeOf_spec] at *
  omega

/-- Rebuild the tree attached under an identifier from the store, to a given
depth: each attached block contributes its payload, its inline children and,
recursively, whatever later writes attached under its own identifier. -/
def rebuild (store : Store) : Nat → Nat → List Tree
  | 0, _ => []
  | fuel + 1, q =>
    (store q).map fun p => Tree.mk p.2.data ((blockShape p.2).kids ++ rebuild store fuel p.1)

/-- Well-formedness of the replay store relative to the id counter: only
identifiers below the counter have children attached, every attached
identifier is below the counter, and each child list carries strictly
increasing identifiers (blocks are attached in creation order). -/
def storeOk (store : Store) (fresh : Nat) : Prop :=
  (∀ q, store q ≠ [] → q < fresh) ∧
  (∀ q, ∀ e ∈ store q, e.1 < fresh) ∧
  (∀ q, ((store q).map Prod.fst).Chain' (· < ·))

/-- The anchor of a pending call points at the last child currently
attached under the parent (or is absent). -/
def anchorOk (store : Store) (parent : Nat) (after : Option Nat) : Prop :=
  match after with
  | Option.none => True
  | some a => ∃ b, (store parent).getLast? = some (a, b)

/-- `MAX_RETRIES` from `retries.rs`. -/
def MAX_RETRIES : Nat := 5

/-- `notion_client::NotionClientError`, collapsed to the distinction the
retry wrappers make: a response with a status code, or any other failure. -/
inductive NotionClientError where
  | invalidStatusCode (status : Nat)
  | otherError
deriving DecidableEq, Repr

/-- The fields of a created Notion page the code reads (its assigned
identifier). -/
structure NotionPage where
  id : Nat
deriving DecidableEq, Repr

/-- `CreateAPageRequest` as built by `make_page`: parent page identifier and
title-style properties (icon, cover and inline children are always absent
there). -/
structure CreateAPageRequest where
  parent : Nat
  properties : List (Str × Str)
deriving DecidableEq, Repr

/-- `AppendBlockChildrenRequest` together with the path parameter
`parent_id`, to express that retried requests are identical. -/
structure AppendBlockChildrenRequest where
  parent_id : Nat
  children : List Block
  after : Option Nat
deriving Repr

/-- `do_create` from `retries.rs`, with the network call modelled by an
oracle from the attempt's retry counter to its outcome.  Also returns the
requests issued, in order (each attempt sends a clone of the same request).
The fixed inter-request delay is real time and is not modelled. -/
def do_create (resp : Nat → Except NotionClientError NotionPage)
    (request : CreateAPageRequest) (retry : Nat) :
    Except NotionClientError NotionPage × List CreateAPageRequest :=
  match resp retry with
  | .ok page => (.ok page, [request])
  | .error e =>
    match e with
    | .invalidStatusCode status =>
      if h : status = 409 ∧ retry < MAX_RETRIES then
        let r := do_create resp request (retry + 1)
        (r.1, request :: r.2)
      else (.error (.invalidStatusCode status), [request])
    | .otherError => (.error .otherError, [request])
termination_by MAX_RETRIES - retry
decreasing_by
  simp_wf
  omega

/-- `do_append` from `retries.rs`: an empty slice is an immediate no-op
success issuing no request; otherwise like `do_create`, retrying only 409
responses up to `MAX_RETRIES` times. -/
def do_append (resp : Nat → Except NotionClientError (List Block)) (parent_id : Nat)
    (slice : List Block) (after : Option Nat) (retry : Nat) :
    Except NotionClientError (List Block) × List AppendBlockChildrenRequest :=
  if slice.isEmpty then (.ok [], [])
  else
    match resp retry with
    | .ok response => (.ok response, [⟨parent_id, slice, after⟩])
    | .error e =>
      match e with
      | .invalidStatusCode status =>
        if h : status = 409 ∧ retry < MAX_RETRIES then
          let r := do_append resp parent_id slice after (retry + 1)
          (r.1, ⟨parent_id, slice, after⟩ :: r.2)
        else (.error (.invalidStatusCode status), [⟨parent_id, slice, after⟩])
      | .otherError => (.error .otherError, [⟨parent_id, slice, after⟩])
termination_by MAX_RETRIES - retry
decreasing_by
  simp_wf
  omega

/-- One remote write issued by `make_page`: the page-creation call or one of
the planner's append calls. -/
inductive RemoteWrite where
  | createPage (req : CreateAPageRequest)
  | appendBlocks (w : Write)
deriving Repr

/-- `PageMaker::make_page` in success mode: convert the input, fail fast
(issuing nothing) when the conversion is empty, otherwise create the page
(the service assigns it `page_id`) and hand the blocks to
`append_children`. -/
def PageMaker.make_page (tree : MdNode) (parent : Nat) (properties : List (Str × Str))
    (page_id fresh : Nat) : Except Str NotionPage × List RemoteWrite :=
  let blocks := convert tree
  if blocks.isEmpty then
    (.error "Markdown AST has no children; is the markdown file empty?".toList, [])
  else
    (.ok ⟨page_id⟩,
      .createPage ⟨parent, properties⟩ ::
        (PageMaker.append_children page_id Option.none blocks fresh).1.map .appendBlocks)

end Md2Notion

namespace ConvertRs

/-- `ListVariation` from `convert.rs`. -/
inductive ListVariation where
  | none
  | bulleted
  | ordered
deriving DecidableEq, Repr

/-- The render `State` of `convert.rs`: like the `lib.rs` one plus the
`nesting` depth counter.  The embedded Notion client, target parent and page
properties are network-facing fields not used by node rendering and are
omitted.  `nesting` is a `u8` in the source; no claim reaches its wrap-around
at 256, so it is modelled as `Nat`. -/
structure State where
  list : ListVariation
  ordered_start : Nat
  links : List (Str × Str)
  images : List (Str × MdImage)
  nesting : Nat
deriving Repr

/-- `State::new` from `convert.rs`. -/
def State.new : State :=
  { list := .none, ordered_start := 1, links := [], images := [], nesting := 0 }

/-- `State::from` from `convert.rs`: copies everything except
`ordered_start`, which is reset to 1. -/
def State.from_ (other : State) : State :=
  { list := other.list, ordered_start := 1, links := other.links,
    images := other.images, nesting := other.nesting }

/-- `State::render_text` from `convert.rs`: a single default-styled span, no
length splitting. -/
def State.render_text (_s : State) (value : Str) : RichText :=
  RichText.text value Option.none (some {}) (some value) Option.none

/-- `State::make_into_rich_text` from `convert.rs`: one span from the
concatenated `Text` children. -/
def State.make_into_rich_text (children : List MdNode) (style : Annotations) : RichText :=
  let content : Str :=
    (children.filterMap fun n => match n with
      | .text v => some v
      | _ => Option.none).flatten
  RichText.text content Option.none (some style) (some content) Option.none

/-- `State::render_strong` from `convert.rs`. -/
def State.render_strong (_s : State) (children : List MdNode) : RichText :=
  State.make_into_rich_text children { bold := true }

/-- `State::render_emphasized` from `convert.rs`. -/
def State.render_emphasized (_s : State) (children : List MdNode) : RichText :=
  State.make_into_rich_text children { italic := true }

/-- `State::render_deletion` from `convert.rs`. -/
def State.render_deletion (_s : State) (children : List MdNode) : RichText :=
  State.make_into_rich_text children { strikethrough := true }

/-- `State::render_link` from `convert.rs`. -/
def State.render_link (s : State) (url : Str) (children : List MdNode) : RichText :=
  let content : Str :=
    (children.filterMap fun n => match n with
      | .text v => some v
      | _ => Option.none).flatten
  let u := match lookupA s.links url with
    | some u => u
    | Option.none => url
  RichText.text content (some u) Option.none (some content) (some u)

/-- `State::render_linkref` from `convert.rs`. -/
def State.render_linkref (s : State) (identifier : Str) (children : List MdNode) : RichText :=
  let content : Str :=
    (children.filterMap fun n => match n with
      | .text v => some v
      | _ => Option.none).flatten
  let u := match lookupA s.links identifier with
    | some u => u
    | Option.none => identifier
  RichText.text content (some u) Option.none (some content) (some u)

/-- `State::render_inline_code` from `convert.rs`. -/
def State.render_inline_code (_s : State) (value : Str) : RichText :=
  RichText.text value Option.none (some { code := true }) (some value) Option.none

/-- `State::render_inline_math` from `convert.rs`. -/
def State.render_inline_math (_s : State) (value : Str) : RichText :=
  RichText.equation value { code := true } value Option.none

/-- `State::render_noteref` from `convert.rs`. -/
def State.render_noteref (_s : State) (identifier : Str) : RichText :=
  RichText.text identifier Option.none (some { color := .gray }) (some identifier)
    Option.none

/-- `State::render_text_node` from `convert.rs`: single-span dispatch. -/
def State.render_text_node (s : State) (n : MdNode) : Option RichText :=
  match n with
  | .delete cs => some (s.render_deletion cs)
  | .emphasis cs => some (s.render_emphasized cs)
  | .footnoteReference iden => some (s.render_noteref iden)
  | .inlineCode v => some (s.render_inline_code v)
  | .inlineMath v => some (s.render_inline_math v)
  | .link url cs => some (s.render_link url cs)
  | .linkReference iden cs => some (s.render_linkref iden cs)
  | .strong cs => some (s.render_strong cs)
  | .text v => some (s.render_text v)
  | _ => Option.none

/-- `State::render_quote` from `convert.rs`. -/
def State.render_quote (s : State) (children : List MdNode) : List Block :=
  let rich_text := children.filterMap (s.render_text_node ·)
  [Block.mk Option.none Option.none (.quote rich_text .default) Option.none]

/-- `State::render_footnote` from `convert.rs`. -/
def State.render_footnote (s : State) (children : List MdNode) : List Block :=
  let rich_text := children.filterMap (s.render_text_node ·)
  [Block.mk Option.none Option.none (.callout rich_text "🗒️".toList .default) Option.none]

/-- `State::table_cell` from `convert.rs`. -/
def State.table_cell (s : State) (children : List MdNode) : List RichText :=
  children.filterMap (s.render_text_node ·)

/-- `State::table_row` from `convert.rs`. -/
def State.table_row (s : State) (children : List MdNode) : List Block :=
  let cells := children.filterMap fun n => match n with
    | .tableCell cs => some (s.table_cell cs)
    | _ => Option.none
  [Block.mk Option.none Option.none (.table_row cells) Option.none]

/-- `State::render_paragraph` from `convert.rs`. -/
def State.render_paragraph (s : State) (children : List MdNode) : List Block :=
  let rich_text := children.filterMap (s.render_text_node ·)
  [Block.mk Option.none Option.none (.paragraph rich_text (some .default)) Option.none]

/-- `State::render_code` from `convert.rs`. -/
def State.render_code (_s : State) (lang : Option Str) (value : Str) : List Block :=
  let rich_text := RichText.text value Option.none Option.none (some value) Option.none
  [Block.mk Option.none Option.none (.code [] [rich_text] (languageOf lang)) Option.none]

/-- `State::render_math` from `convert.rs`. -/
def State.render_math (_s : State) (value : Str) : List Block :=
  [Block.mk Option.none Option.none (.equation value) Option.none]

/-- `State::render_html` from `convert.rs`. -/
def State.render_html (_s : State) (value : Str) : List Block :=
  let rich_text := RichText.text value Option.none Option.none (some value) Option.none
  [Block.mk Option.none Option.none (.code [] [rich_text] .plain_text) Option.none]

/-- `State::render_image` from `convert.rs`. -/
def State.render_image (_s : State) (img : MdImage) : List Block :=
  [Block.mk Option.none Option.none (.image img.url) Option.none]

/-- `State::render_image_ref` from `convert.rs`. -/
def State.render_image_ref (s : State) (identifier : Str) : List Block :=
  match lookupA s.images identifier with
  | some img => s.render_image img
  | Option.none => [Block.mk Option.none Option.none .none Option.none]

/-- `State::render_divider` from `convert.rs`. -/
def State.render_divider (_s : State) : List Block :=
  [Block.mk Option.none Option.none .divider Option.none]

/-- `State::render_heading` from `convert.rs`. -/
def State.render_heading (s : State) (depth : Nat) (children : List MdNode) : List Block :=
  let rich_text := children.filterMap (s.render_text_node ·)
  let data : BlockData :=
    if depth = 1 then .heading_1 rich_text
    else if depth = 2 then .heading_2 rich_text
    else .heading_3 rich_text
  [Block.mk Option.none Option.none data Option.none]

/-- `State::collect_definitions` from `convert.rs` (identical to the
`lib.rs` one). -/
def State.collect_definitions (s : State) (nodelist : List MdNode) : State :=
  let tables := nodelist.foldl
    (fun (t : List (Str × Str) × List (Str × MdImage)) n =>
      match n with
      | .image img => (t.1, insertA t.2 img.alt img)
      | .definition identifier url => (insertA t.1 identifier url, t.2)
      | _ => t)
    ([], [])
  { s with links := tables.1, images := tables.2 }

mutual

/-- `State::render_nodes` from `convert.rs`. -/
def State.render_nodes (s : State) (nodelist : List MdNode) : State × List Block :=
  State.render_nodes_go (s.collect_definitions nodelist) nodelist
termination_by ((sizeOf nodelist, 2) : Nat × Nat)

/-- The threaded `flat_map` fold inside `render_nodes` (`convert.rs`). -/
def State.render_nodes_go (s : State) (nodelist : List MdNode) : State × List Block :=
  match nodelist with
  | [] => (s, [])
  | n :: rest =>
    let r1 := State.render_node s n
    let r2 := State.render_nodes_go r1.1 rest
    (r2.1, r1.2 ++ r2.2)
termination_by ((sizeOf nodelist, 1) : Nat × Nat)

/-- `State::render_node` from `convert.rs`. -/
def State.render_node (s : State) (n : MdNode) : State × List Block :=
  match n with
  | .blockQuote cs => (s, s.render_quote cs)
  | .footnoteDefinition _ cs => (s, s.render_footnote cs)
  | .list ordered start cs => State.begin_list s ordered start cs
  | .html v => (s, s.render_html v)
  | .image img => (s, s.render_image img)
  | .imageReference iden => (s, s.render_image_ref iden)
  | .code lang v => (s, s.render_code lang v)
  | .math v => (s, s.render_math v)
  | .heading depth cs => (s, s.render_heading depth cs)
  | .table align cs => State.begin_table s align cs
  | .tableRow cs => (s, s.table_row cs)
  | .thematicBreak => (s, s.render_divider)
  | .listItem cs => State.render_list_item s cs
  | .paragraph cs => (s, s.render_paragraph cs)
  | _ => (s, [])
termination_by ((sizeOf n, 0) : Nat × Nat)

/-- `State::begin_list` from `convert.rs`: clone via `State::from`, set the
list kind and start, increment `nesting`, render the items under the clone;
`self` is returned unchanged. -/
def State.begin_list (s : State) (ordered : Bool) (start : Option Nat)
    (children : List MdNode) : State × List Block :=
  let state0 := State.from_ s
  let state := { state0 with
    list := if ordered then ListVariation.ordered else ListVariation.bulleted,
    ordered_start := match start with
      | some st => st
      | Option.none => state0.ordered_start,
    nesting := s.nesting + 1 }
  (s, (State.render_nodes state children).2)
termination_by ((sizeOf children, 3) : Nat × Nat)

/-- `State::render_list_item` from `convert.rs`. -/
def State.render_list_item (s : State) (children : List MdNode) : State × List Block :=
  match s.list with
  | .none => State.rendered_bullet_li s children
  | .bulleted => State.rendered_bullet_li s children
  | .ordered => State.render_numbered_li s children
termination_by ((sizeOf children, 4) : Nat × Nat)

/-- `State::render_numbered_li` from `convert.rs`: all the item's children
are rendered as blocks, its rich text is collected from its direct text-like
children (against the state mutated by that rendering, in source order), and
for `nesting > 2` the child blocks are emitted as trailing siblings instead
of being attached as children. -/
def State.render_numbered_li (s : State) (children : List MdNode) : State × List Block :=
  let r := State.render_nodes s children
  let rich_text := children.filterMap (r.1.render_text_node ·)
  if r.1.nesting > 2 then
    (r.1, Block.mk Option.none Option.none (.numbered_list_item rich_text .default)
      Option.none :: r.2)
  else
    let childrenField := if r.2.isEmpty then Option.none else some r.2
    (r.1, [Block.mk Option.none Option.none (.numbered_list_item rich_text .default)
      childrenField])
termination_by ((sizeOf children, 3) : Nat × Nat)

/-- `State::rendered_bullet_li` from `convert.rs`: bulleted counterpart of
`render_numbered_li`; unlike the numbered one it attaches `Some` children
even when the rendered child list is empty. -/
def State.rendered_bullet_li (s : State) (children : List MdNode) : State × List Block :=
  let r := State.render_nodes s children
  let rich_text := children.filterMap (r.1.render_text_node ·)
  if r.1.nesting > 2 then
    (r.1, Block.mk Option.none Option.none (.bulleted_list_item rich_text .default)
      Option.none :: r.2)
  else
    (r.1, [Block.mk Option.none Option.none (.bulleted_list_item rich_text .default)
      (some r.2)])
termination_by ((sizeOf children, 3) : Nat × Nat)

/-- `State::begin_table` from `convert.rs`. -/
def State.begin_table (s : State) (align : List AlignKind)
    (children : List MdNode) : State × List Block :=
  let has_row_header := !align.isEmpty
  let r := State.render_nodes s children
  let longest : Nat := r.2.foldl
    (fun acc b => match b.data with
      | .table_row cells => max acc cells.length
      | _ => acc) 1
  (r.1, [Block.mk Option.none Option.none (.table longest false has_row_header)
    (some r.2)])
termination_by ((sizeOf children, 3) : Nat × Nat)

end

end ConvertRs

end Nuc2Not

namespace Nuc2Not

theorem byteLen_nil : byteLen [] = 0 := rfl

theorem byteLen_cons (c : Char) (l : Str) : byteLen (c :: l) = c.utf8Size + byteLen l := by
  simp [byteLen]

theorem takeWithin_append (budget : Nat) (s : Str) :
    (takeWithin budget s).1 ++ (takeWithin budget s).2 = s := by
  induction s generalizing budget with
  | nil => simp [takeWithin]
  | cons c rest ih =>
    simp only [takeWithin]
    split
    · simp [ih]
    · simp

theorem takeWithin_byteLen_le (budget : Nat) (s : Str) :
    byteLen (takeWithin budget s).1 ≤ budget := by
  induction s generalizing budget with
  | nil => simp [takeWithin, byteLen_nil]
  | cons c rest ih =>
    simp only [takeWithin]
    split
    case isTrue h =>
      have := ih (budget - c.utf8Size)
      simp only [byteLen_cons]
      omega
    case isFalse h => simp [byteLen_nil]

namespace Md2Notion

/-- C1: `split_text_at_api_limit` returns a non-empty list of spans whose
contents concatenate back to the input, each span is a `Text` span of at
most 2000 bytes carrying a copy of the given style (no link, no href, plain
text equal to its content), and the empty input yields exactly one empty
span.  Splits land on character boundaries by construction of the model:
the spans partition the input's character list. -/
theorem split_text_at_api_limit_spec (content : Str) (style : Annotations) :
    State.split_text_at_api_limit content style ≠ [] ∧
    ((State.split_text_at_api_limit content style).map RichText.content).flatten = content ∧
    (∀ t ∈ State.split_text_at_api_limit content style,
      ∃ c, t = RichText.text c Option.none (some style) (some c) Option.none ∧
        byteLen c ≤ 2000) ∧
    State.split_text_at_api_limit [] style =
      [RichText.text [] Option.none (some style) (some []) Option.none] := by
  refine ⟨?_, ?_, ?_, ?_⟩
  case _ =>
    rw [State.split_text_at_api_limit]
    split <;> simp
  case _ =>
    rw [State.split_text_at_api_limit]
    split
    case isTrue h =>
      have ih := (split_text_at_api_limit_spec (takeWithin 2000 content).2 style).2.1
      simp only [List.map_cons, List.flatten_cons, RichText.content, ih]
      exact takeWithin_append 2000 content
    case isFalse h => simp [RichText.content]
  case _ =>
    intro t ht
    rw [State.split_text_at_api_limit] at ht
    split at ht
    case isTrue h =>
      rcases List.mem_cons.mp ht with rfl | hmem
      · exact ⟨(takeWithin 2000 content).1, rfl, takeWithin_byteLen_le 2000 content⟩
      · exact (split_text_at_api_limit_spec (takeWithin 2000 content).2 style).2.2.1 t hmem
    case isFalse h =>
      rcases List.mem_singleton.mp ht with rfl
      exact ⟨content, rfl, by omega⟩
  case _ =>
    rw [State.split_text_at_api_limit]
    simp [byteLen_nil]
termination_by content.length
decreasing_by
  all_goals
    (have h : byteLen content > 2000 := by assumption
     have key : ∀ (b : Nat) (l : Str), ((takeWithin b l).2).length ≤ l.length := by
      intro b l
      induction l generalizing b with
      | nil => simp [takeWithin]
      | cons c rest ih =>
        simp only [takeWithin]
        split
        · simpa using Nat.le_succ_of_le (ih _)
        · simp
     cases content with
     | nil => simp [byteLen] at h
     | cons c rest =>
       have hc : c.utf8Size ≤ 2000 := le_trans (Char.utf8Size_le_four c) (by omega)
       simp only [takeWithin, if_pos hc, List.length_cons]
       exact Nat.lt_succ_of_le (key _ rest))

end Md2Notion
end Nuc2Not

namespace Nuc2Not
namespace Md2Notion

theorem do_create_conflict_run (resp : Nat → Except NotionClientError NotionPage)
    (req : CreateAPageRequest) (k : Nat) (hk : k ≤ MAX_RETRIES)
    (hresp : ∀ n, k ≤ n → n ≤ MAX_RETRIES → resp n = .error (.invalidStatusCode 409)) :
    do_create resp req k =
      (.error (.invalidStatusCode 409), List.replicate (MAX_RETRIES + 1 - k) req) := by
  rw [do_create, hresp k le_rfl hk]
  dsimp only
  by_cases hlt : k < MAX_RETRIES
  · rw [dif_pos ⟨rfl, hlt⟩]
    rw [do_create_conflict_run resp req (k + 1) hlt
      (fun n hn1 hn2 => hresp n (by omega) hn2)]
    have : MAX_RETRIES + 1 - k = (MAX_RETRIES + 1 - (k + 1)) + 1 := by omega
    rw [this, List.replicate_succ]
  · have hke : k = MAX_RETRIES := by omega
    rw [dif_neg (by omega)]
    subst hke
    simp
termination_by MAX_RETRIES - k
decreasing_by
  simp_wf
  omega

theorem do_append_conflict_run (resp : Nat → Except NotionClientError (List Block))
    (parent_id : Nat) (slice : List Block) (after : Option Nat) (hne : slice.isEmpty = false)
    (k : Nat) (hk : k ≤ MAX_RETRIES)
    (hresp : ∀ n, k ≤ n → n ≤ MAX_RETRIES → resp n = .error (.invalidStatusCode 409)) :
    do_append resp parent_id slice after k =
      (.error (.invalidStatusCode 409),
        List.replicate (MAX_RETRIES + 1 - k) ⟨parent_id, slice, after⟩) := by
  rw [do_append, if_neg (by simp [hne]), hresp k le_rfl hk]
  dsimp only
  by_cases hlt : k < MAX_RETRIES
  · rw [dif_pos ⟨rfl, hlt⟩]
    rw [do_append_conflict_run resp parent_id slice after hne (k + 1) hlt
      (fun n hn1 hn2 => hresp n (by omega) hn2)]
    have : MAX_RETRIES + 1 - k = (MAX_RETRIES + 1 - (k + 1)) + 1 := by omega
    rw [this, List.replicate_succ]
  · have hke : k = MAX_RETRIES := by omega
    rw [dif_neg (by omega)]
    subst hke
    simp
termination_by MAX_RETRIES - k
decreasing_by
  simp_wf
  omega

/-- C4: for both the page-creation and the append wrapper, a 409 response is
retried with an identical request up to `MAX_RETRIES = 5` times (six
attempts in all), after which the conflict is returned; a response with any
other status, or a non-status error, is returned immediately after a single
request; and appending an empty batch succeeds immediately without issuing
any request. -/
theorem retry_wrapper_spec :
    (∀ (resp : Nat → Except NotionClientError NotionPage) (req : CreateAPageRequest),
      (∀ n, n ≤ MAX_RETRIES → resp n = .error (.invalidStatusCode 409)) →
      do_create resp req 0 = (.error (.invalidStatusCode 409), List.replicate 6 req)) ∧
    (∀ (resp : Nat → Except NotionClientError NotionPage) (req : CreateAPageRequest)
      (status : Nat), status ≠ 409 → resp 0 = .error (.invalidStatusCode status) →
      do_create resp req 0 = (.error (.invalidStatusCode status), [req])) ∧
    (∀ (resp : Nat → Except NotionClientError NotionPage) (req : CreateAPageRequest),
      resp 0 = .error .otherError →
      do_create resp req 0 = (.error .otherError, [req])) ∧
    (∀ (resp : Nat → Except NotionClientError (List Block)) (parent_id : Nat)
      (slice : List Block) (after : Option Nat), slice.isEmpty = false →
      (∀ n, n ≤ MAX_RETRIES → resp n = .error (.invalidStatusCode 409)) →
      do_append resp parent_id slice after 0 =
        (.error (.invalidStatusCode 409),
          List.replicate 6 ⟨parent_id, slice, after⟩)) ∧
    (∀ (resp : Nat → Except NotionClientError (List Block)) (parent_id : Nat)
      (slice : List Block) (after : Option Nat) (status : Nat), slice.isEmpty = false →
      status ≠ 409 → resp 0 = .error (.invalidStatusCode status) →
      do_append resp parent_id slice after 0 =
        (.error (.invalidStatusCode status), [⟨parent_id, slice, after⟩])) ∧
    (∀ (resp : Nat → Except NotionClientError (List Block)) (parent_id : Nat)
      (slice : List Block) (after : Option Nat), slice.isEmpty = false →
      resp 0 = .error .otherError →
      do_append resp parent_id slice after 0 =
        (.error .otherError, [⟨parent_id, slice, after⟩])) ∧
    (∀ (resp : Nat → Except NotionClientError (List Block)) (parent_id : Nat)
      (after : Option Nat),
      do_append resp parent_id [] after 0 = (.ok [], [])) := by
  refine ⟨?_, ?_, ?_, ?_, ?_, ?_, ?_⟩
  · intro resp req hresp
    exact do_create_conflict_run resp req 0 (by omega) (fun n _ hn => hresp n hn)
  · intro resp req status hst hresp
    rw [do_create, hresp]
    dsimp only
    rw [dif_neg (by omega)]
  · intro resp req hresp
    rw [do_create, hresp]
  · intro resp parent_id slice after hne hresp
    exact do_append_conflict_run resp parent_id slice after hne 0 (by omega)
      (fun n _ hn => hresp n hn)
  · intro resp parent_id slice after status hne hst hresp
    rw [do_append, if_neg (by simp [hne]), hresp]
    dsimp only
    rw [dif_neg (by omega)]
  · intro resp parent_id slice after hne hresp
    rw [do_append, if_neg (by simp [hne]), hresp]
  · intro resp parent_id after
    rw [do_append]
    simp

/-- Witness for C4 at concrete oracles: an always-conflicting create is
retried to six identical attempts; a 500 response and a non-status error
return at once; the all-conflict append issues six identical requests; the
empty append is a silent success. -/
theorem retry_wrapper_spec_witness :
    do_create (fun _ => .error (.invalidStatusCode 409)) ⟨7, []⟩ 0 =
      (.error (.invalidStatusCode 409), List.replicate 6 ⟨7, []⟩) ∧
    do_create (fun _ => .error (.invalidStatusCode 500)) ⟨7, []⟩ 0 =
      (.error (.invalidStatusCode 500), [⟨7, []⟩]) ∧
    do_create (fun _ => .error .otherError) ⟨7, []⟩ 0 =
      (.error .otherError, [⟨7, []⟩]) ∧
    do_append (fun _ => .error (.invalidStatusCode 409)) 7
        [Block.mk Option.none Option.none .divider Option.none] Option.none 0 =
      (.error (.invalidStatusCode 409),
        List.replicate 6 ⟨7, [Block.mk Option.none Option.none .divider Option.none],
          Option.none⟩) ∧
    do_append (fun _ => .error .otherError) 7
        [Block.mk Option.none Option.none .divider Option.none] Option.none 0 =
      (.error .otherError,
        [⟨7, [Block.mk Option.none Option.none .divider Option.none], Option.none⟩]) ∧
    do_append (fun _ => .error (.invalidStatusCode 409)) 7 [] Option.none 0 = (.ok [], []) :=
  ⟨retry_wrapper_spec.1 _ _ (fun _ _ => rfl),
   retry_wrapper_spec.2.1 _ _ 500 (by omega) rfl,
   retry_wrapper_spec.2.2.1 _ _ rfl,
   retry_wrapper_spec.2.2.2.1 _ _ _ _ rfl (fun _ _ => rfl),
   retry_wrapper_spec.2.2.2.2.2.1 _ _ _ _ rfl rfl,
   retry_wrapper_spec.2.2.2.2.2.2 _ _ _⟩

end Md2Notion
end Nuc2Not

namespace Nuc2Not
namespace Md2Notion

/-- C5: when the conversion of the input is empty, `make_page` fails with
the empty-document error and issues no remote write at all; when it is
non-empty, the page-creation write is issued (first), and the call
succeeds in the success-mode model. -/
theorem make_page_empty_guard :
    (∀ (tree : MdNode) (parent : Nat) (properties : List (Str × Str)) (page_id fresh : Nat),
      convert tree = [] →
      PageMaker.make_page tree parent properties page_id fresh =
        (.error "Markdown AST has no children; is the markdown file empty?".toList, [])) ∧
    (∀ (tree : MdNode) (parent : Nat) (properties : List (Str × Str)) (page_id fresh : Nat),
      convert tree ≠ [] →
      (PageMaker.make_page tree parent properties page_id fresh).2.head? =
        some (.createPage ⟨parent, properties⟩) ∧
      (PageMaker.make_page tree parent properties page_id fresh).1 = .ok ⟨page_id⟩) := by
  constructor
  · intro tree parent properties page_id fresh hconv
    rw [PageMaker.make_page]
    rw [if_pos (by simp [hconv])]
  · intro tree parent properties page_id fresh hconv
    rw [PageMaker.make_page]
    rw [if_neg (by simp [hconv])]
    exact ⟨rfl, rfl⟩

/-- Witness for C5: the empty document converts to no blocks, so `make_page`
fails without writing; a document holding one thematic break converts to a
divider block, so the page-creation write is issued. -/
theorem make_page_empty_guard_witness :
    PageMaker.make_page (.root []) 3 [] 9 10 =
      (.error "Markdown AST has no children; is the markdown file empty?".toList, []) ∧
    (PageMaker.make_page (.root [.thematicBreak]) 3 [] 9 10).2.head? =
      some (.createPage ⟨3, []⟩) :=
  ⟨make_page_empty_guard.1 _ 3 [] 9 10
      (by rw [convert, State.render]
          simp [MdNode.children?, State.render_nodes, State.render_nodes_go]),
   (make_page_empty_guard.2 _ 3 [] 9 10
      (by rw [convert, State.render]
          simp [MdNode.children?, State.render_nodes, State.render_nodes_go,
            State.render_node, State.render_divider])).1⟩

/-- C6 counterexample: with an empty image table, an image reference to
`pic` renders as a single block of type `None`; no block uses the literal
identifier as an image url, so the unresolved image reference does not fall
back to the identifier as target URL. -/
theorem unresolved_image_ref_no_url_fallback :
    State.render_image_ref State.new "pic".toList =
      [Block.mk Option.none Option.none BlockData.none Option.none] ∧
    ((State.render_image_ref State.new "pic".toList).all fun b =>
      match b.data with
      | .image _ => false
      | _ => true) = true := by
  constructor
  · rfl
  · rfl

/-- C6 (amended): rendering an unresolved link or image reference never
fails; an unresolved link reference falls back to its literal identifier as
both the span's `href` and its link url, while an unresolved image
reference yields a single placeholder block of type `None` (not an image at
the identifier). -/
theorem unresolved_reference_fallback :
    (∀ (s : State) (identifier : Str) (children : List MdNode),
      lookupA s.links identifier = Option.none →
      (State.render_linkref s identifier children).href = some identifier ∧
      (State.render_linkref s identifier children).linkUrl = some identifier) ∧
    (∀ (s : State) (identifier : Str),
      lookupA s.images identifier = Option.none →
      State.render_image_ref s identifier =
        [Block.mk Option.none Option.none BlockData.none Option.none]) := by
  constructor
  · intro s identifier children hmiss
    rw [State.render_linkref]
    rw [hmiss]
    exact ⟨rfl, rfl⟩
  · intro s identifier hmiss
    rw [State.render_image_ref]
    rw [hmiss]

/-- Witness for the amended C6 at the fresh state and identifier `x`. -/
theorem unresolved_reference_fallback_witness :
    ((State.render_linkref State.new "x".toList []).href = some "x".toList ∧
      (State.render_linkref State.new "x".toList []).linkUrl = some "x".toList) ∧
    State.render_image_ref State.new "x".toList =
      [Block.mk Option.none Option.none BlockData.none Option.none] :=
  ⟨unresolved_reference_fallback.1 State.new "x".toList [] rfl,
   unresolved_reference_fallback.2 State.new "x".toList rfl⟩

/-- C9: an image reference whose identifier is absent from the image table
renders as exactly one block whose `block_type` is `BlockType::None` — a
placeholder occupying a position in the output, neither zero blocks nor an
image block. -/
theorem unresolved_image_ref_placeholder (s : State) (identifier : Str)
    (hmiss : lookupA s.images identifier = Option.none) :
    State.render_image_ref s identifier =
      [Block.mk Option.none Option.none BlockData.none Option.none] := by
  rw [State.render_image_ref]
  rw [hmiss]

/-- Witness for C9 at the fresh state and identifier `logo`. -/
theorem unresolved_image_ref_placeholder_witness :
    State.render_image_ref State.new "logo".toList =
      [Block.mk Option.none Option.none BlockData.none Option.none] :=
  unresolved_image_ref_placeholder State.new "logo".toList rfl

/-- C10: a list item whose first child is not a paragraph renders (in both
the bulleted and the numbered renderer of `lib.rs`) to a single list-item
block with empty rich text whose children are the renders of the remaining
children only — the first child appears nowhere in the output. -/
theorem li_nonparagraph_first_child_dropped :
    (∀ (s : State) (first : MdNode) (rest : List MdNode), first.isParagraph = false →
      State.rendered_bullet_li s (first :: rest) =
        ((State.render_nodes s rest).1,
          [Block.mk Option.none Option.none (.bulleted_list_item [] .default)
            (some (State.render_nodes s rest).2)])) ∧
    (∀ (s : State) (first : MdNode) (rest : List MdNode), first.isParagraph = false →
      State.render_numbered_li s (first :: rest) =
        ((State.render_nodes s rest).1,
          [Block.mk Option.none Option.none (.numbered_list_item [] .default)
            (some (State.render_nodes s rest).2)])) := by
  constructor
  · intro s first rest hfp
    rw [State.rendered_bullet_li]
    cases first <;> simp_all [MdNode.isParagraph]
  · intro s first rest hfp
    rw [State.render_numbered_li]
    cases first <;> simp_all [MdNode.isParagraph]

/-- Witness for C10: a code block as first (and only) item child is dropped
and the item keeps empty rich text. -/
theorem li_nonparagraph_first_child_dropped_witness :
    State.rendered_bullet_li State.new [.code Option.none "x".toList] =
      ((State.render_nodes State.new []).1,
        [Block.mk Option.none Option.none (.bulleted_list_item [] .default)
          (some (State.render_nodes State.new []).2)]) ∧
    State.render_numbered_li State.new [.code Option.none "x".toList] =
      ((State.render_nodes State.new []).1,
        [Block.mk Option.none Option.none (.numbered_list_item [] .default)
          (some (State.render_nodes State.new []).2)]) :=
  ⟨li_nonparagraph_first_child_dropped.1 State.new _ [] rfl,
   li_nonparagraph_first_child_dropped.2 State.new _ [] rfl⟩

end Md2Notion
end Nuc2Not

namespace Nuc2Not
namespace ConvertRs

/-- Rendering never changes the `nesting` counter of the threaded state: only
clones created by `begin_list` carry an incremented counter, and clones are
discarded.  Stated jointly for the whole mutual render group. -/
theorem render_preserves_nesting :
    (∀ (s : State) (nl : List MdNode), (State.render_nodes s nl).1.nesting = s.nesting) ∧
    (∀ (s : State) (nl : List MdNode), (State.render_nodes_go s nl).1.nesting = s.nesting) ∧
    (∀ (s : State) (n : MdNode), (State.render_node s n).1.nesting = s.nesting) ∧
    (∀ (s : State) (cs : List MdNode), (State.render_list_item s cs).1.nesting = s.nesting) ∧
    (∀ (s : State) (cs : List MdNode), (State.render_numbered_li s cs).1.nesting = s.nesting) ∧
    (∀ (s : State) (cs : List MdNode), (State.rendered_bullet_li s cs).1.nesting = s.nesting) ∧
    (∀ (s : State) (align : List AlignKind) (cs : List MdNode),
      (State.begin_table s align cs).1.nesting = s.nesting) ∧
    (∀ (s : State) (ordered : Bool) (start : Option Nat) (cs : List MdNode),
      (State.begin_list s ordered start cs).1.nesting = s.nesting) := by
  apply State.render_nodes.mutual_induct <;> intros <;>
    first
      | assumption
      | simp_all [State.render_nodes, State.render_nodes_go, State.render_node,
          State.render_list_item, State.render_numbered_li, State.rendered_bullet_li,
          State.begin_table, State.begin_list, State.collect_definitions]
      | (rename_i n i1 i2 i3 i4 i5 i6 i7 i8 i9 i10 i11 i12 i13 i14 i15
         cases n <;>
           first
             | simp [State.render_node]
             | (exfalso; solve_by_elim))
      | skip
  case case3 s n rest r1 ih2 ih1 => exact ih2
  case case22 s children r h ih =>
    split <;> first | exact ih | simp_all
  case case23 s children r h ih =>
    split <;> first | exact ih | simp_all
  case case24 s children r h ih =>
    split <;> first | exact ih | simp_all
  case case25 s children r h ih =>
    split <;> first | exact ih | simp_all
  case case27 s ordered start children state0 state ih =>
    rw [State.begin_list.eq_def]

end ConvertRs
end Nuc2Not

namespace Nuc2Not
namespace ConvertRs

/-- C7: in the `convert.rs` renderer, a list item rendered with nesting
depth above the ceiling (`nesting > 2`) does not attach its rendered child
blocks as the list-item block's children (the block carries `None`
children); instead they follow the item block as additional siblings in the
output, for both bulleted and numbered items. -/
theorem deep_nested_li_emits_siblings :
    (∀ (s : State) (children : List MdNode), s.nesting > 2 →
      State.rendered_bullet_li s children =
        ((State.render_nodes s children).1,
          Block.mk Option.none Option.none
            (.bulleted_list_item
              (children.filterMap (((State.render_nodes s children).1).render_text_node ·))
              .default) Option.none ::
          (State.render_nodes s children).2)) ∧
    (∀ (s : State) (children : List MdNode), s.nesting > 2 →
      State.render_numbered_li s children =
        ((State.render_nodes s children).1,
          Block.mk Option.none Option.none
            (.numbered_list_item
              (children.filterMap (((State.render_nodes s children).1).render_text_node ·))
              .default) Option.none ::
          (State.render_nodes s children).2)) := by
  constructor
  · intro s children hnest
    rw [State.rendered_bullet_li]
    rw [if_pos (by rw [render_preserves_nesting.1 s children]; exact hnest)]
  · intro s children hnest
    rw [State.render_numbered_li]
    rw [if_pos (by rw [render_preserves_nesting.1 s children]; exact hnest)]

/-- Witness for C7 at nesting depth 3 with no item children: the item block
carries no children and is followed by the (empty) sibling list. -/
theorem deep_nested_li_emits_siblings_witness :
    State.rendered_bullet_li ⟨.bulleted, 1, [], [], 3⟩ [] =
      ((State.render_nodes ⟨.bulleted, 1, [], [], 3⟩ []).1,
        Block.mk Option.none Option.none (.bulleted_list_item [] .default) Option.none ::
        (State.render_nodes ⟨.bulleted, 1, [], [], 3⟩ []).2) ∧
    State.render_numbered_li ⟨.ordered, 1, [], [], 3⟩ [] =
      ((State.render_nodes ⟨.ordered, 1, [], [], 3⟩ []).1,
        Block.mk Option.none Option.none (.numbered_list_item [] .default) Option.none ::
        (State.render_nodes ⟨.ordered, 1, [], [], 3⟩ []).2) :=
  ⟨deep_nested_li_emits_siblings.1 _ [] (by decide),
   deep_nested_li_emits_siblings.2 _ [] (by decide)⟩

end ConvertRs
end Nuc2Not

namespace Nuc2Not
namespace Md2Notion

set_option maxRecDepth 4000 in
/-- C8 counterexample: rendering the sibling list of a bulleted list whose
first item contains the definition `x -> u` among its children and whose
second item references `x`.  The tables built for the item list itself
contain no definitions, so under the claimed scoping the second item's
reference would fall back to its literal identifier `x`; instead the
definition collected while rendering the first item's children is still in
effect and the reference resolves to `u`. -/
theorem definition_scope_leak_counterexample :
    convert (.root [.list false Option.none [
        .listItem [.paragraph [.text "a".toList], .definition "x".toList "u".toList],
        .listItem [.paragraph [.linkReference "x".toList [.text "x".toList]]]]]) =
      [Block.mk Option.none Option.none
        (.bulleted_list_item
          [RichText.text "a".toList Option.none (some {}) (some "a".toList) Option.none]
          .default) (some []),
       Block.mk Option.none Option.none
        (.bulleted_list_item
          [RichText.text "x".toList (some "u".toList) Option.none (some "x".toList)
            (some "u".toList)]
          .default) (some [])] ∧
    ("u".toList : Str) ≠ "x".toList := by
  constructor
  · have hsplit : ∀ c : Char, State.split_text_at_api_limit [c] {} =
        [RichText.text [c] Option.none (some {}) (some [c]) Option.none] := by
      intro c
      rw [State.split_text_at_api_limit]
      rw [if_neg (by have h4 := Char.utf8Size_le_four c; simp [byteLen]; omega)]
    simp [convert, State.render, MdNode.children?, State.render_nodes,
      State.render_nodes_go, State.render_node, State.begin_list, State.render_list_item,
      State.rendered_bullet_li, State.collect_definitions, State.render_text_node,
      State.render_text, State.render_linkref, hsplit, insertA, lookupA]
  · decide

end Md2Notion
end Nuc2Not

namespace Nuc2Not

theorem lookupA_insertA {α : Type} (m : List (Str × α)) (k : Str) (v : α) (k' : Str) :
    lookupA (insertA m k v) k' = if k = k' then some v else lookupA m k' := by
  induction m with
  | nil => simp [insertA, lookupA]
  | cons p rest ih =>
    obtain ⟨pk, pv⟩ := p
    by_cases hk : k = k' <;> by_cases hp : pk = k <;>
      simp_all [insertA, lookupA]

theorem option_or_none_right (a : Option α) : a.or Option.none = a := by
  cases a <;> rfl

theorem option_or_assoc (a b c : Option α) : (a.or b).or c = a.or (b.or c) := by
  cases a <;> rfl

theorem option_or_if_some (c : Prop) [Decidable c] (u : α) (x : Option α) :
    (Option.or (if c then some u else Option.none) x) = if c then some u else x := by
  split <;> rfl

namespace Md2Notion

theorem links_fold_lookup (nl : List MdNode)
    (acc : List (Str × Str) × List (Str × MdImage)) (identifier : Str) :
    lookupA (nl.foldl
      (fun (t : List (Str × Str) × List (Str × MdImage)) n =>
        match n with
        | .image img => (t.1, insertA t.2 img.alt img)
        | .definition iden url => (insertA t.1 iden url, t.2)
        | _ => t) acc).1 identifier =
      (nl.reverse.findSome? fun n => match n with
        | MdNode.definition iden url =>
          if iden = identifier then some url else Option.none
        | _ => Option.none).or (lookupA acc.1 identifier) := by
  induction nl generalizing acc with
  | nil => simp
  | cons n rest ih =>
    rw [List.foldl_cons, ih, List.reverse_cons, List.findSome?_append]
    cases n <;>
      simp only [List.findSome?_cons, List.findSome?_nil, lookupA_insertA,
        option_or_none_right, option_or_assoc, option_or_if_some] <;>
      first
        | rfl
        | simp [option_or_none_right]
        | (split <;> simp [option_or_none_right])

theorem images_fold_lookup (nl : List MdNode)
    (acc : List (Str × Str) × List (Str × MdImage)) (alt : Str) :
    lookupA (nl.foldl
      (fun (t : List (Str × Str) × List (Str × MdImage)) n =>
        match n with
        | .image img => (t.1, insertA t.2 img.alt img)
        | .definition iden url => (insertA t.1 iden url, t.2)
        | _ => t) acc).2 alt =
      (nl.reverse.findSome? fun n => match n with
        | MdNode.image img => if img.alt = alt then some img else Option.none
        | _ => Option.none).or (lookupA acc.2 alt) := by
  induction nl generalizing acc with
  | nil => simp
  | cons n rest ih =>
    rw [List.foldl_cons, ih, List.reverse_cons, List.findSome?_append]
    cases n <;>
      simp only [List.findSome?_cons, List.findSome?_nil, lookupA_insertA,
        option_or_none_right, option_or_assoc, option_or_if_some] <;>
      first
        | rfl
        | simp [option_or_none_right]
        | (split <;> simp [option_or_none_right])

/-- C8 (amended): `collect_definitions` rebuilds the link table from the
`Definition` nodes and the image table from the inline `Image` nodes
appearing directly in the sibling list — never recursing into children —
with later definitions for the same identifier overwriting earlier ones
(the lookup finds the last matching top-level node), and the new tables
wholly replace the previous ones: the resulting lookups are independent of
the incoming state's tables.  (The replacement is not undone afterwards:
tables installed while rendering a nested sibling list remain in effect for
the enclosing list's later siblings, as the recorded counterexample
shows.) -/
theorem collect_definitions_spec (s : State) (nl : List MdNode) :
    (∀ identifier, lookupA (s.collect_definitions nl).links identifier =
      (nl.reverse.findSome? fun n => match n with
        | MdNode.definition iden url =>
          if iden = identifier then some url else Option.none
        | _ => Option.none)) ∧
    (∀ alt, lookupA (s.collect_definitions nl).images alt =
      (nl.reverse.findSome? fun n => match n with
        | MdNode.image img => if img.alt = alt then some img else Option.none
        | _ => Option.none)) ∧
    (s.collect_definitions nl).list = s.list ∧
    (s.collect_definitions nl).ordered_start = s.ordered_start := by
  refine ⟨?_, ?_, rfl, rfl⟩
  · intro identifier
    rw [State.collect_definitions]
    rw [links_fold_lookup]
    simp [lookupA, option_or_none_right]
  · intro alt
    rw [State.collect_definitions]
    rw [images_fold_lookup]
    simp [lookupA, option_or_none_right]

end Md2Notion
end Nuc2Not

namespace Nuc2Not
namespace Md2Notion

theorem block_has_deep_children_eq (nesting : Nat) (b : Block) :
    PageMaker.block_has_deep_children nesting b =
      match trackedKids b with
      | Option.none => false
      | Option.some kids =>
        if kids.isEmpty then false
        else if nesting == MAX_NESTING then true
        else kids.any fun c => PageMaker.block_has_deep_children (nesting + 1) c := by
  rw [PageMaker.block_has_deep_children]
  split
  case _ hk => rw [hk]
  case _ kids hk =>
    rw [hk]
    have hany : (kids.attach.any fun c => PageMaker.block_has_deep_children (nesting + 1) c.1)
        = kids.any fun c => PageMaker.block_has_deep_children (nesting + 1) c := by
      rw [List.any_eq, List.any_eq]
      simp
    rw [hany]

theorem split_block_from_children_eq (b : Block) :
    split_block_from_children b =
      match trackedKids b with
      | Option.none => (b, Option.none)
      | Option.some kids =>
        if kids.isEmpty then (b, Option.none)
        else (Block.mk b.id (some false) b.data Option.none, some kids) := by
  rw [split_block_from_children]
  split
  case _ hk => rw [hk]
  case _ kids hk => rw [hk]

theorem getLast?_range_map (fresh n : Nat) :
    (((List.range (n + 1)).map (fresh + ·)).getLast?) = some (fresh + n) := by
  rw [List.range_succ, List.map_append]
  simp

theorem append_children_eq (parent_id : Nat) (after_id : Option Nat)
    (queue : List Block) (fresh : Nat) :
    PageMaker.append_children parent_id after_id queue fresh =
      PageMaker.append_loop parent_id after_id queue [] fresh := by
  rw [PageMaker.append_children]

theorem append_loop_nil (parent_id : Nat) (after : Option Nat) (tranche : List Block)
    (fresh : Nat) :
    PageMaker.append_loop parent_id after [] tranche fresh =
      if tranche.isEmpty then ([], fresh)
      else ([⟨parent_id, after, tranche⟩], fresh + tranche.length) := by
  rw [PageMaker.append_loop]

theorem append_loop_deep (parent_id : Nat) (after : Option Nat) (head : Block)
    (rest tranche : List Block) (fresh : Nat) (copy : Block) (kids : List Block)
    (hd : PageMaker.block_has_deep_children 0 head = true)
    (hs : split_block_from_children head = (copy, some kids)) :
    PageMaker.append_loop parent_id after (head :: rest) tranche fresh =
      let head_id := fresh + tranche.length
      let fresh1 := fresh + tranche.length + 1
      let r1 := PageMaker.append_children head_id Option.none kids fresh1
      let r2 := PageMaker.append_children parent_id (some head_id) rest r1.2
      (⟨parent_id, after, tranche ++ [copy]⟩ :: (r1.1 ++ r2.1), r2.2) := by
  rw [PageMaker.append_loop]
  rw [if_pos hd]
  split
  case _ copy' mc' heq =>
    rw [hs] at heq
    obtain ⟨h1, h2⟩ := Prod.mk.injEq .. ▸ heq
    subst h1
    subst h2
    simp only [List.length_append, List.length_cons, List.length_nil,
      getLast?_range_map, Option.getD_some]
    have hlen : fresh + (tranche.length + (0 + 1)) = fresh + tranche.length + 1 := by omega
    rw [hlen]

theorem append_loop_flush (parent_id : Nat) (after : Option Nat) (head : Block)
    (rest tranche : List Block) (fresh : Nat)
    (hd : PageMaker.block_has_deep_children 0 head = false)
    (hlen : tranche.length + 1 = 100) :
    PageMaker.append_loop parent_id after (head :: rest) tranche fresh =
      let r := PageMaker.append_loop parent_id (some (fresh + 99)) rest [] (fresh + 100)
      (⟨parent_id, after, tranche ++ [head]⟩ :: r.1, r.2) := by
  rw [PageMaker.append_loop]
  rw [if_neg (by simp [hd])]
  rw [if_pos (by simp [hlen])]
  have h100 : tranche.length + (0 + 1) = 100 := by omega
  simp only [List.length_append, List.length_cons, List.length_nil, h100]
  have hlast : ((List.range 100).map (fresh + ·)).getLast? = some (fresh + 99) := by
    have he : (100 : Nat) = 99 + 1 := by omega
    rw [he, getLast?_range_map]
  rw [hlast]

theorem append_loop_shallow (parent_id : Nat) (after : Option Nat) (head : Block)
    (rest tranche : List Block) (fresh : Nat)
    (hd : PageMaker.block_has_deep_children 0 head = false)
    (hlen : tranche.length + 1 ≠ 100) :
    PageMaker.append_loop parent_id after (head :: rest) tranche fresh =
      PageMaker.append_loop parent_id after rest (tranche ++ [head]) fresh := by
  rw [PageMaker.append_loop]
  rw [if_neg (by simp [hd])]
  simp only [List.length_append, List.length_cons, List.length_nil]
  rw [if_neg (by simp; omega)]

end Md2Notion
end Nuc2Not

namespace Nuc2Not
namespace Md2Notion

theorem trackedKids_children_none (i : Option Nat) (h : Option Bool) (d : BlockData) :
    trackedKids (Block.mk i h d Option.none) = Option.none := by
  cases d <;> rfl

theorem deep_split (head : Block)
    (hd : PageMaker.block_has_deep_children 0 head = true) :
    ∃ kids, trackedKids head = some kids ∧ kids.isEmpty = false ∧
      split_block_from_children head =
        (Block.mk head.id (some false) head.data Option.none, some kids) := by
  rw [block_has_deep_children_eq] at hd
  cases hk : trackedKids head with
  | none => rw [hk] at hd; simp at hd
  | some kids =>
    rw [hk] at hd
    dsimp only at hd
    by_cases he : kids.isEmpty
    · rw [if_pos he] at hd; simp at hd
    · refine ⟨kids, rfl, by simpa using he, ?_⟩
      rw [split_block_from_children_eq, hk]
      dsimp only
      rw [if_neg he]

theorem nondeep_shallow (b : Block)
    (hb : PageMaker.block_has_deep_children 0 b = false) :
    ∀ c ∈ (trackedKids b).getD [], (trackedKids c).getD [] = [] := by
  intro c hc
  rw [block_has_deep_children_eq] at hb
  cases hk : trackedKids b with
  | none => rw [hk] at hc; simp at hc
  | some kids =>
    rw [hk] at hb hc
    dsimp only at hb
    simp only [Option.getD_some] at hc
    by_cases he : kids.isEmpty
    · rw [List.isEmpty_iff] at he
      subst he
      simp at hc
    · rw [if_neg he] at hb
      rw [if_neg (by decide)] at hb
      have hcfalse : PageMaker.block_has_deep_children 1 c = false := by
        rcases List.any_eq_false.mp (by simpa using hb) c hc with h
        simpa using h
      rw [block_has_deep_children_eq] at hcfalse
      cases hk2 : trackedKids c with
      | none => simp
      | some kids2 =>
        rw [hk2] at hcfalse
        dsimp only at hcfalse
        by_cases he2 : kids2.isEmpty
        · simpa [List.isEmpty_iff.mp he2] using List.isEmpty_iff.mp he2
        · rw [if_neg he2] at hcfalse
          rw [if_pos (by decide)] at hcfalse
          simp at hcfalse

theorem append_limits_aux :
    (∀ (p : Nat) (a : Option Nat) (q : List Block) (f : Nat),
      ∀ w ∈ (PageMaker.append_children p a q f).1,
        w.children.length ≤ 100 ∧
        ∀ b ∈ w.children, ∀ c ∈ (trackedKids b).getD [], (trackedKids c).getD [] = []) ∧
    (∀ (p : Nat) (a : Option Nat) (q tr : List Block) (f : Nat),
      (∀ b ∈ tr, PageMaker.block_has_deep_children 0 b = false) → tr.length < 100 →
      ∀ w ∈ (PageMaker.append_loop p a q tr f).1,
        w.children.length ≤ 100 ∧
        ∀ b ∈ w.children, ∀ c ∈ (trackedKids b).getD [], (trackedKids c).getD [] = []) := by
  refine PageMaker.append_children.mutual_induct
    (fun p a q f =>
      ∀ w ∈ (PageMaker.append_children p a q f).1,
        w.children.length ≤ 100 ∧
        ∀ b ∈ w.children, ∀ c ∈ (trackedKids b).getD [], (trackedKids c).getD [] = [])
    (fun p a q tr f =>
      (∀ b ∈ tr, PageMaker.block_has_deep_children 0 b = false) → tr.length < 100 →
      ∀ w ∈ (PageMaker.append_loop p a q tr f).1,
        w.children.length ≤ 100 ∧
        ∀ b ∈ w.children, ∀ c ∈ (trackedKids b).getD [], (trackedKids c).getD [] = [])
    ?_ ?_ ?_ ?_ ?_ ?_
  · -- append_children delegates to the loop with an empty tranche
    intro p a q f ih
    rw [append_children_eq]
    exact ih (by simp) (by simp)
  · -- empty queue, empty tranche: no writes
    intro p a tr f hemp _ _ w hw
    rw [append_loop_nil, if_pos hemp] at hw
    simp at hw
  · -- empty queue, trailing flush
    intro p a tr f hemp hnd hlt w hw
    rw [append_loop_nil, if_neg hemp] at hw
    rcases List.mem_singleton.mp hw with rfl
    exact ⟨by simpa using Nat.le_of_lt hlt, fun b hb => nondeep_shallow b (hnd b hb)⟩
  · -- deep head: strip, flush, recurse into children and remaining queue
    intro p a tr f head rest hd copy maybe_children hs tranche1 fresh1 created_ids
      head_id r1 ih1 ih2 ih3 hnd hlt w hw
    obtain ⟨kids, htk, hne, hsplit⟩ := deep_split head hd
    rw [hs] at hsplit
    obtain ⟨hcopy, hmc⟩ := Prod.mk.injEq .. ▸ hsplit.symm
    subst hmc
    have hf1 : fresh1 = f + tr.length + 1 := by
      show f + (tr ++ [copy]).length = f + tr.length + 1
      simp only [List.length_append, List.length_cons, List.length_nil]
      omega
    have hhid : head_id = f + tr.length := by
      show created_ids.getLast?.getD p = f + tr.length
      show (((List.range (tr ++ [copy]).length).map (f + ·)).getLast?).getD p = f + tr.length
      rw [show (tr ++ [copy]).length = tr.length + 1 by simp, getLast?_range_map]
      rfl
    have hr1 : r1 = PageMaker.append_children head_id Option.none kids fresh1 := rfl
    rw [append_loop_deep p a head rest tr f copy kids hd hs] at hw
    simp only [List.mem_cons, List.mem_append] at hw
    rcases hw with rfl | hw1 | hw2
    · constructor
      · simp only [Write.children, List.length_append, List.length_cons, List.length_nil]
        omega
      · intro b hb
        rcases List.mem_append.mp hb with hbt | hbc
        · exact nondeep_shallow b (hnd b hbt)
        · rcases List.mem_singleton.mp hbc with rfl
          subst hcopy
          rw [trackedKids_children_none]
          simp
    · have hkids := ih1 kids hs
      rw [hhid, hf1] at hkids
      exact hkids w hw1
    · have hrest := ih3
      rw [hr1, hhid, hf1] at hrest
      exact hrest w hw2
  · -- shallow head reaching the 100-block limit: flush, continue with anchor
    intro p a tr f head rest hd tranche1 hfull fresh1 created_ids after1 ih hnd hlt w hw
    have hd' : PageMaker.block_has_deep_children 0 head = false := by
      simpa using hd
    have hlen1 : tranche1.length = 100 := by simpa using hfull
    have hlen0 : (tr ++ [head]).length = 100 := hlen1
    have hlen : tr.length + 1 = 100 := by simpa using hlen0
    have hf1 : fresh1 = f + 100 := by
      show f + (tr ++ [head]).length = f + 100
      rw [hlen0]
    have ha1 : after1 = some (f + 99) := by
      show (match created_ids.getLast? with
        | some last => some last
        | Option.none => a) = some (f + 99)
      show (match (((List.range (tr ++ [head]).length).map (f + ·)).getLast?) with
        | some last => some last
        | Option.none => a) = some (f + 99)
      rw [show (tr ++ [head]).length = 99 + 1 by simp [List.length_append]; omega,
        getLast?_range_map]
    rw [append_loop_flush p a head rest tr f hd' hlen] at hw
    simp only [List.mem_cons] at hw
    rcases hw with rfl | hw1
    · constructor
      · show (tr ++ [head]).length ≤ 100
        rw [hlen0]
      · intro b hb
        rcases List.mem_append.mp hb with hbt | hbh
        · exact nondeep_shallow b (hnd b hbt)
        · rcases List.mem_singleton.mp hbh with rfl
          exact nondeep_shallow b hd'
    · have ihw := ih (fun b hb => absurd hb (List.not_mem_nil b)) (by decide)
      rw [ha1, hf1] at ihw
      exact ihw w hw1
  · -- shallow head below the limit: extend the tranche
    intro p a tr f head rest hd tranche1 hnfull ih hnd hlt w hw
    have hd' : PageMaker.block_has_deep_children 0 head = false := by
      simpa using hd
    have hlen : tr.length + 1 ≠ 100 := by
      intro hcontra
      apply hnfull
      show ((tr ++ [head]).length == 100) = true
      simp only [List.length_append, List.length_cons, List.length_nil, beq_iff_eq]
      omega
    rw [append_loop_shallow p a head rest tr f hd' hlen] at hw
    refine ih ?_ ?_ w hw
    · intro b hb
      rcases List.mem_append.mp hb with hbt | hbh
      · exact hnd b hbt
      · rcases List.mem_singleton.mp hbh with rfl
        exact hd'
    · show (tr ++ [head]).length < 100
      simp only [List.length_append, List.length_cons, List.length_nil]
      omega

end Md2Notion
end Nuc2Not

namespace Nuc2Not
namespace Md2Notion

/-- C3 (amended): every write issued by `append_children` carries at most
100 sibling blocks, and no block in an issued batch has a depth-tracked
child (the paragraph / quote / bulleted and numbered list-item children the
depth check inspects) that itself has non-empty tracked children.  Children
carried by other variants — tables — are invisible to the depth check and
can travel nested deeper, as the recorded counterexample shows. -/
theorem append_children_write_limits (p : Nat) (a : Option Nat) (blocks : List Block)
    (fresh : Nat) :
    ∀ w ∈ (PageMaker.append_children p a blocks fresh).1,
      w.children.length ≤ 100 ∧
      ∀ b ∈ w.children, ∀ c ∈ (trackedKids b).getD [], (trackedKids c).getD [] = [] :=
  append_limits_aux.1 p a blocks fresh

/-- Witness for the amended C3: the single write submitting one childless
paragraph block respects both limits. -/
theorem append_children_write_limits_witness :
    (⟨0, Option.none,
        [Block.mk Option.none Option.none (.paragraph [] (some .default)) Option.none]⟩ :
          Write).children.length ≤ 100 ∧
    ∀ b ∈ (⟨0, Option.none,
        [Block.mk Option.none Option.none (.paragraph [] (some .default)) Option.none]⟩ :
          Write).children,
      ∀ c ∈ (trackedKids b).getD [], (trackedKids c).getD [] = [] := by
  refine append_children_write_limits 0 Option.none
    [Block.mk Option.none Option.none (.paragraph [] (some .default)) Option.none] 1 _ ?_
  have hd : PageMaker.block_has_deep_children 0
      (Block.mk Option.none Option.none (.paragraph [] (some .default)) Option.none)
        = false := by
    rw [block_has_deep_children_eq]
    rfl
  rw [append_children_eq]
  rw [append_loop_shallow _ _ _ _ _ _ hd (by decide)]
  rw [append_loop_nil]
  simp

set_option maxRecDepth 4000 in
/-- C3 counterexample: converting a bulleted list whose item holds a
paragraph and a one-row table yields a list-item block whose table child
carries a non-empty row list; the depth check does not track table
children, so the planner submits the whole thing in one write whose batch
contains a block with a child that itself has non-empty children. -/
theorem deep_table_escapes_depth_check :
    ∃ w ∈ (PageMaker.append_children 0 Option.none
      (convert (.root [.list false Option.none [.listItem [
        .paragraph [.text "a".toList],
        .table [] [.tableRow [.tableCell [.text "x".toList]]]]]])) 1).1,
      ∃ b ∈ w.children, ∃ c ∈ b.children.getD [], (c.children.getD []).isEmpty = false := by
  have hsplit : ∀ c : Char, State.split_text_at_api_limit [c] {} =
      [RichText.text [c] Option.none (some {}) (some [c]) Option.none] := by
    intro c
    rw [State.split_text_at_api_limit]
    rw [if_neg (by have h4 := Char.utf8Size_le_four c; simp [byteLen]; omega)]
  have hconv : convert (.root [.list false Option.none [.listItem [
        .paragraph [.text "a".toList],
        .table [] [.tableRow [.tableCell [.text "x".toList]]]]]]) =
      [Block.mk Option.none Option.none
        (.bulleted_list_item
          [RichText.text ['a'] Option.none (some {}) (some ['a']) Option.none] .default)
        (some [Block.mk Option.none Option.none (.table 1 false false)
          (some [Block.mk Option.none Option.none
            (.table_row [[RichText.text ['x'] Option.none (some {}) (some ['x'])
              Option.none]]) Option.none])])] := by
    simp [convert, State.render, MdNode.children?, State.render_nodes,
      State.render_nodes_go, State.render_node, State.begin_list, State.render_list_item,
      State.rendered_bullet_li, State.collect_definitions, State.render_text_node,
      State.render_text, State.begin_table, State.table_row, State.table_cell, hsplit,
      Block.data, List.foldl_cons, List.foldl_nil]
  rw [hconv]
  have hd : PageMaker.block_has_deep_children 0
      (Block.mk Option.none Option.none
        (.bulleted_list_item
          [RichText.text ['a'] Option.none (some {}) (some ['a']) Option.none] .default)
        (some [Block.mk Option.none Option.none (.table 1 false false)
          (some [Block.mk Option.none Option.none
            (.table_row [[RichText.text ['x'] Option.none (some {}) (some ['x'])
              Option.none]]) Option.none])])) = false := by
    rw [block_has_deep_children_eq]
    simp only [trackedKids, Block.data, Block.children]
    rw [if_neg (by decide)]
    rw [if_neg (by decide)]
    simp only [List.any_cons, List.any_nil]
    rw [block_has_deep_children_eq]
    simp [trackedKids, Block.data, Block.children]
  rw [append_children_eq]
  rw [append_loop_shallow _ _ _ _ _ _ hd (by decide)]
  rw [append_loop_nil]
  refine ⟨⟨0, Option.none,
      [Block.mk Option.none Option.none
        (.bulleted_list_item
          [RichText.text ['a'] Option.none (some {}) (some ['a']) Option.none] .default)
        (some [Block.mk Option.none Option.none (.table 1 false false)
          (some [Block.mk Option.none Option.none
            (.table_row [[RichText.text ['x'] Option.none (some {}) (some ['x'])
              Option.none]]) Option.none])])]⟩, ?_,
    Block.mk Option.none Option.none
        (.bulleted_list_item
          [RichText.text ['a'] Option.none (some {}) (some ['a']) Option.none] .default)
        (some [Block.mk Option.none Option.none (.table 1 false false)
          (some [Block.mk Option.none Option.none
            (.table_row [[RichText.text ['x'] Option.none (some {}) (some ['x'])
              Option.none]]) Option.none])]), ?_,
    Block.mk Option.none Option.none (.table 1 false false)
          (some [Block.mk Option.none Option.none
            (.table_row [[RichText.text ['x'] Option.none (some {}) (some ['x'])
              Option.none]]) Option.none]), ?_, ?_⟩
  · simp
  · exact List.mem_singleton.mpr rfl
  · simp [Block.children]
  · rfl

end Md2Notion
end Nuc2Not
namespace Nuc2Not
namespace Md2Notion

theorem replay_append (ws1 ws2 : List Write) (st : Store × Nat) :
    replay (ws1 ++ ws2) st = replay ws2 (replay ws1 st) := by
  simp [replay, List.foldl_append]

theorem replay_cons (w : Write) (ws : List Write) (st : Store × Nat) :
    replay (w :: ws) st = replay ws (applyWrite st w) := by
  simp [replay]

theorem replay_nil (st : Store × Nat) : replay [] st = st := rfl

theorem rebuild_nil_entry (store : Store) (fuel q : Nat) (h : store q = []) :
    rebuild store fuel q = [] := by
  cases fuel with
  | zero => rfl
  | succ g => rw [rebuild, h]; rfl

theorem blockShape_mk (i : Option Nat) (h : Option Bool) (d : BlockData)
    (c : Option (List Block)) :
    blockShape (Block.mk i h d c) =
      Tree.mk d (match c with
        | some kids => kids.map blockShape
        | Option.none => []) := by
  rw [blockShape.eq_def]
  dsimp only
  cases c with
  | none => rfl
  | some kids => simp

theorem blockShape_data_kids (b : Block) :
    Tree.mk b.data (blockShape b).kids = blockShape b := by
  obtain ⟨i, h, d, c⟩ := b
  rw [blockShape_mk]
  rfl

theorem trackedKids_eq_children (b : Block) (kids : List Block)
    (h : trackedKids b = some kids) : b.children = some kids := by
  obtain ⟨i, hc, d, c⟩ := b
  unfold trackedKids at h
  cases d <;> simp_all [Block.children, Block.data]

theorem chain_lt_range_map (f n : Nat) :
    ((List.range n).map (f + ·)).Chain' (· < ·) := by
  rw [List.chain'_iff_pairwise]
  refine List.Pairwise.map _ ?_ (List.pairwise_lt_range n)
  intro a b hab
  omega

theorem mem_range_map (f n i : Nat) (h : i ∈ (List.range n).map (f + ·)) :
    f ≤ i ∧ i < f + n := by
  rcases List.mem_map.mp h with ⟨j, hj, rfl⟩
  have := List.mem_range.mp hj
  omega

theorem insertAfterEntry_last (l : List (Nat × Block)) (a : Nat)
    (new : List (Nat × Block)) (hchain : (l.map Prod.fst).Chain' (· < ·))
    (hlast : ∃ b, l.getLast? = some (a, b)) :
    insertAfterEntry l a new = l ++ new := by
  induction l with
  | nil => obtain ⟨b, hb⟩ := hlast; simp at hb
  | cons p rest ih =>
    obtain ⟨b, hb⟩ := hlast
    rw [insertAfterEntry]
    cases rest with
    | nil =>
      simp only [List.getLast?_singleton, Option.some.injEq] at hb
      rw [if_pos (by rw [hb])]
      simp
    | cons r rest2 =>
      have hbrest : (r :: rest2).getLast? = some (a, b) := by
        rw [← hb]
        exact (List.getLast?_cons_cons ..).symm
      have hmem : (a, b) ∈ r :: rest2 := List.mem_of_mem_getLast? hbrest
      have hamem : a ∈ (r :: rest2).map Prod.fst :=
        List.mem_map.mpr ⟨(a, b), hmem, rfl⟩
      have hpa : ¬p.1 = a := by
        intro hcontra
        have hch := List.chain'_iff_pairwise.mp hchain
        simp only [List.map_cons] at hch
        have := List.rel_of_pairwise_cons hch (by simpa using hamem)
        omega
      rw [if_neg hpa]
      have hct : ((r :: rest2).map Prod.fst).Chain' (· < ·) := by
        have := hchain.tail
        simpa using this
      rw [ih hct ⟨b, hbrest⟩]
      rfl


theorem zip_shapes (store2 : Store) (fuel : Nat) :
    ∀ (ids : List Nat) (bs : List Block), ids.length = bs.length →
    (∀ i ∈ ids, store2 i = []) →
    ((ids.zip bs).map
      (fun e => Tree.mk e.2.data ((blockShape e.2).kids ++ rebuild store2 fuel e.1))) =
      bs.map blockShape := by
  intro ids
  induction ids with
  | nil =>
    intro bs hlen _
    cases bs with
    | nil => rfl
    | cons b bt => simp at hlen
  | cons i it ih =>
    intro bs hlen hin
    cases bs with
    | nil => simp at hlen
    | cons b bt =>
      simp only [List.zip_cons_cons, List.map_cons]
      rw [rebuild_nil_entry store2 fuel i (hin i (by simp))]
      rw [List.append_nil, blockShape_data_kids]
      rw [ih bt (by simpa using hlen) (fun j hj => hin j (by simp [hj]))]

theorem zip_assigned_concat (f n : Nat) (bs : List Block) (bl : Block)
    (hlen : bs.length = n) :
    (((List.range (n + 1)).map (f + ·)).zip (bs ++ [bl])) =
      ((((List.range n).map (f + ·)).zip bs) ++ [(f + n, bl)]) := by
  rw [List.range_succ, List.map_append]
  rw [List.zip_append (by simpa using hlen.symm)]
  rfl

theorem applyWrite_spec (store : Store) (f p : Nat) (a : Option Nat) (bs : List Block)
    (hok : storeOk store f) (hp : p < f) (ha : anchorOk store p a) :
    (applyWrite (store, f) ⟨p, a, bs⟩).2 = f + bs.length ∧
    (applyWrite (store, f) ⟨p, a, bs⟩).1 p =
      store p ++ (((List.range bs.length).map (f + ·)).zip bs) ∧
    (∀ q, q ≠ p → (applyWrite (store, f) ⟨p, a, bs⟩).1 q = store q) ∧
    storeOk (applyWrite (store, f) ⟨p, a, bs⟩).1 (f + bs.length) := by
  obtain ⟨hok1, hok2, hok3⟩ := hok
  have hinsert : insertAfterList (store p) a
      ((((List.range bs.length).map (f + ·))).zip bs) =
      store p ++ (((List.range bs.length).map (f + ·)).zip bs) := by
    cases a with
    | none => rfl
    | some anchor =>
      rw [insertAfterList]
      exact insertAfterEntry_last (store p) anchor _ (hok3 p) ha
  have hstore1 : ∀ q, (applyWrite (store, f) ⟨p, a, bs⟩).1 q =
      if q = p then store p ++ (((List.range bs.length).map (f + ·)).zip bs)
      else store q := by
    intro q
    show (if q = p then insertAfterList (store p) a _ else store q) = _
    by_cases hq : q = p
    · rw [if_pos hq, if_pos hq, hinsert]
    · rw [if_neg hq, if_neg hq]
  refine ⟨rfl, ?_, ?_, ?_, ?_, ?_⟩
  · rw [hstore1 p, if_pos rfl]
  · intro q hq
    rw [hstore1 q, if_neg hq]
  · -- non-empty entries sit below the new counter
    intro q hne
    rw [hstore1 q] at hne
    by_cases hq : q = p
    · omega
    · rw [if_neg hq] at hne
      have := hok1 q hne
      omega
  · -- attached ids are below the new counter
    intro q e he
    rw [hstore1 q] at he
    by_cases hq : q = p
    · rw [if_pos hq] at he
      rcases List.mem_append.mp he with hold | hnew
      · have := hok2 q e (hq ▸ hold)
        omega
      · have := (mem_range_map f bs.length e.1 (List.of_mem_zip hnew).1).2
        omega
    · rw [if_neg hq] at he
      have := hok2 q e he
      omega
  · -- each child list remains strictly increasing
    intro q
    rw [hstore1 q]
    by_cases hq : q = p
    · rw [if_pos hq]
      rw [List.map_append]
      rw [List.chain'_append]
      refine ⟨hok3 p, ?_, ?_⟩
      · rw [List.map_fst_zip _ _ (by simp)]
        exact chain_lt_range_map f bs.length
      · intro x hx y hy
        have hxmem : x ∈ (store p).map Prod.fst := by
          exact List.mem_of_mem_getLast? hx
        rcases List.mem_map.mp hxmem with ⟨e, he, rfl⟩
        have hxlt := hok2 p e he
        have hymem : y ∈ ((((List.range bs.length).map (f + ·)).zip bs).map Prod.fst) := by
          exact List.mem_of_mem_head? hy
        rw [List.map_fst_zip _ _ (by simp)] at hymem
        have := (mem_range_map f bs.length y hymem).1
        omega
    · rw [if_neg hq]
      exact hok3 q


theorem rebuild_succ (store : Store) (fuel q : Nat) :
    rebuild store (fuel + 1) q =
      (store q).map fun p =>
        Tree.mk p.2.data ((blockShape p.2).kids ++ rebuild store fuel p.1) := rfl

theorem blockShape_children_some (b : Block) (kids : List Block)
    (h : b.children = some kids) :
    blockShape b = Tree.mk b.data (kids.map blockShape) := by
  obtain ⟨i, hc, d, ch⟩ := b
  simp only [Block.children] at h
  subst h
  rw [blockShape_mk]
  rfl

theorem append_replay_aux :
    (∀ (p : Nat) (a : Option Nat) (q : List Block) (f : Nat),
      ∀ ws f2, PageMaker.append_children p a q f = (ws, f2) →
      ∀ store : Store, storeOk store f → p < f → anchorOk store p a →
      ∀ store2 ctr2, replay ws (store, f) = (store2, ctr2) →
      ctr2 = f2 ∧ f ≤ f2 ∧
      (∀ q2, q2 ≠ p → (q2 < f ∨ f2 ≤ q2) → store2 q2 = store q2) ∧
      storeOk store2 f2 ∧
      ∃ NEWL : List (Nat × Block), store2 p = store p ++ NEWL ∧
        (∀ e ∈ NEWL, f ≤ e.1 ∧ e.1 < f2) ∧
        ∀ (fuel : Nat) (store3 : Store), f2 - f ≤ fuel →
          (∀ q2, f ≤ q2 → q2 < f2 → store3 q2 = store2 q2) →
          NEWL.map (fun e => Tree.mk e.2.data
            ((blockShape e.2).kids ++ rebuild store3 fuel e.1)) = q.map blockShape) ∧
    (∀ (p : Nat) (a : Option Nat) (q tr : List Block) (f : Nat),
      ∀ ws f2, PageMaker.append_loop p a q tr f = (ws, f2) →
      ∀ store : Store, storeOk store f → p < f → anchorOk store p a →
      ∀ store2 ctr2, replay ws (store, f) = (store2, ctr2) →
      ctr2 = f2 ∧ f ≤ f2 ∧
      (∀ q2, q2 ≠ p → (q2 < f ∨ f2 ≤ q2) → store2 q2 = store q2) ∧
      storeOk store2 f2 ∧
      ∃ NEWL : List (Nat × Block), store2 p = store p ++ NEWL ∧
        (∀ e ∈ NEWL, f ≤ e.1 ∧ e.1 < f2) ∧
        ∀ (fuel : Nat) (store3 : Store), f2 - f ≤ fuel →
          (∀ q2, f ≤ q2 → q2 < f2 → store3 q2 = store2 q2) →
          NEWL.map (fun e => Tree.mk e.2.data
            ((blockShape e.2).kids ++ rebuild store3 fuel e.1)) = (tr ++ q).map blockShape) := by
  refine PageMaker.append_children.mutual_induct
    (fun p a q f =>
      ∀ ws f2, PageMaker.append_children p a q f = (ws, f2) →
      ∀ store : Store, storeOk store f → p < f → anchorOk store p a →
      ∀ store2 ctr2, replay ws (store, f) = (store2, ctr2) →
      ctr2 = f2 ∧ f ≤ f2 ∧
      (∀ q2, q2 ≠ p → (q2 < f ∨ f2 ≤ q2) → store2 q2 = store q2) ∧
      storeOk store2 f2 ∧
      ∃ NEWL : List (Nat × Block), store2 p = store p ++ NEWL ∧
        (∀ e ∈ NEWL, f ≤ e.1 ∧ e.1 < f2) ∧
        ∀ (fuel : Nat) (store3 : Store), f2 - f ≤ fuel →
          (∀ q2, f ≤ q2 → q2 < f2 → store3 q2 = store2 q2) →
          NEWL.map (fun e => Tree.mk e.2.data
            ((blockShape e.2).kids ++ rebuild store3 fuel e.1)) = q.map blockShape)
    (fun p a q tr f =>
      ∀ ws f2, PageMaker.append_loop p a q tr f = (ws, f2) →
      ∀ store : Store, storeOk store f → p < f → anchorOk store p a →
      ∀ store2 ctr2, replay ws (store, f) = (store2, ctr2) →
      ctr2 = f2 ∧ f ≤ f2 ∧
      (∀ q2, q2 ≠ p → (q2 < f ∨ f2 ≤ q2) → store2 q2 = store q2) ∧
      storeOk store2 f2 ∧
      ∃ NEWL : List (Nat × Block), store2 p = store p ++ NEWL ∧
        (∀ e ∈ NEWL, f ≤ e.1 ∧ e.1 < f2) ∧
        ∀ (fuel : Nat) (store3 : Store), f2 - f ≤ fuel →
          (∀ q2, f ≤ q2 → q2 < f2 → store3 q2 = store2 q2) →
          NEWL.map (fun e => Tree.mk e.2.data
            ((blockShape e.2).kids ++ rebuild store3 fuel e.1)) = (tr ++ q).map blockShape)
    ?_ ?_ ?_ ?_ ?_ ?_
  · -- append_children delegates to append_loop with an empty tranche
    intro p a q f ih ws f2 hws store hok hp ha store2 ctr2 hrep
    rw [append_children_eq] at hws
    have hx := ih ws f2 hws store hok hp ha store2 ctr2 hrep
    simpa only [List.nil_append] using hx
  · -- empty queue, empty tranche: nothing to replay
    intro p a tr f hemp ws f2 hws store hok hp ha store2 ctr2 hrep
    rw [append_loop_nil, if_pos hemp] at hws
    obtain ⟨hws1, hws2⟩ := Prod.mk.injEq .. ▸ hws
    subst hws1
    subst hws2
    rw [replay_nil] at hrep
    obtain ⟨hst, hctr⟩ := Prod.mk.injEq .. ▸ hrep
    subst hst
    subst hctr
    refine ⟨rfl, Nat.le_refl f, fun _ _ _ => rfl, hok, [], by simp, by simp, ?_⟩
    intro fuel store3 _ _
    rw [List.isEmpty_iff.mp hemp]
    rfl
  · -- empty queue, trailing flush of the current tranche
    intro p a tr f hemp ws f2 hws store hok hp ha store2 ctr2 hrep
    rw [append_loop_nil, if_neg hemp] at hws
    obtain ⟨hws1, hws2⟩ := Prod.mk.injEq .. ▸ hws
    subst hws1
    subst hws2
    obtain ⟨haw2, haw1, haw3, haw4⟩ := applyWrite_spec store f p a tr hok hp ha
    rw [replay_cons, replay_nil] at hrep
    rcases happ : applyWrite (store, f) ⟨p, a, tr⟩ with ⟨store1, g1⟩
    rw [happ] at hrep haw2 haw1 haw3 haw4
    dsimp only at haw2 haw1 haw3 haw4
    obtain ⟨hst, hctr⟩ := Prod.mk.injEq .. ▸ hrep
    subst hst
    subst hctr
    refine ⟨haw2, by omega, fun q2 hq2 _ => haw3 q2 hq2, haw2 ▸ haw4,
      ((List.range tr.length).map (f + ·)).zip tr, haw1, ?_, ?_⟩
    · intro e he
      have hb := mem_range_map f tr.length e.1 (List.of_mem_zip he).1
      omega
    · intro fuel store3 hfuel hagree
      rw [List.append_nil]
      refine zip_shapes store3 fuel _ tr (by simp) ?_
      intro i hi
      have hb := mem_range_map f tr.length i hi
      rw [hagree i (by omega) (by omega), haw3 i (by omega)]
      by_cases hnil : store i = []
      · exact hnil
      · exact absurd (hok.1 i hnil) (by omega)
  · -- deep head: flush with the stripped copy, recurse into kids and the rest
    intro p a tr f head rest hd copy maybe_children hs tranche1 fresh1 created_ids
      head_id r1 ih1 ih2 ih3 ws f2x hws store hok hp ha store2 ctr2 hrep
    obtain ⟨kids, htk, hne, hsplit⟩ := deep_split head hd
    rw [hs] at hsplit
    obtain ⟨hcopy, hmc⟩ := Prod.mk.injEq .. ▸ hsplit.symm
    subst hmc
    have hf1 : fresh1 = f + tr.length + 1 := by
      show f + (tr ++ [copy]).length = f + tr.length + 1
      simp only [List.length_append, List.length_cons, List.length_nil]
      omega
    have hhid : head_id = f + tr.length := by
      show created_ids.getLast?.getD p = f + tr.length
      show (((List.range (tr ++ [copy]).length).map (f + ·)).getLast?).getD p = f + tr.length
      rw [show (tr ++ [copy]).length = tr.length + 1 by simp, getLast?_range_map]
      rfl
    have hr1 : r1 = PageMaker.append_children head_id Option.none kids fresh1 := rfl
    have hih1 := ih1 kids hs
    rw [hhid, hf1] at hih1
    have hih3 := ih3
    rw [hr1, hhid, hf1] at hih3
    rw [append_loop_deep p a head rest tr f copy kids hd hs] at hws
    dsimp only at hws
    rcases hrun1 : PageMaker.append_children (f + tr.length) Option.none kids
      (f + tr.length + 1) with ⟨ws1, f2⟩
    rw [hrun1] at hws hih3
    dsimp only at hws hih3
    rcases hrun2 : PageMaker.append_children p (some (f + tr.length)) rest f2
      with ⟨ws2, f3⟩
    rw [hrun2] at hws
    dsimp only at hws
    obtain ⟨hws1, hws2⟩ := Prod.mk.injEq .. ▸ hws
    subst hws1
    subst hws2
    rw [replay_cons, replay_append] at hrep
    obtain ⟨haw2, haw1, haw3, haw4⟩ := applyWrite_spec store f p a (tr ++ [copy]) hok hp ha
    have hlen1 : (tr ++ [copy]).length = tr.length + 1 := by simp
    rcases happ : applyWrite (store, f) ⟨p, a, tr ++ [copy]⟩ with ⟨store1, g1⟩
    rw [happ] at hrep haw2 haw1 haw3 haw4
    dsimp only at haw2 haw1 haw3 haw4
    have hg1 : g1 = f + tr.length + 1 := by omega
    subst hg1
    have hok1 : storeOk store1 (f + tr.length + 1) := by
      rw [show f + tr.length + 1 = f + (tr ++ [copy]).length by omega]
      exact haw4
    have hzip : (((List.range (tr ++ [copy]).length).map (f + ·)).zip (tr ++ [copy]))
        = (((List.range tr.length).map (f + ·)).zip tr) ++ [(f + tr.length, copy)] := by
      rw [hlen1]
      exact zip_assigned_concat f tr.length tr copy rfl
    rcases hrepB : replay ws1 (store1, f + tr.length + 1) with ⟨storeB, ctrB⟩
    rw [hrepB] at hrep
    have hB := hih1 ws1 f2 hrun1 store1 hok1 (by omega) trivial storeB ctrB hrepB
    obtain ⟨hB_ctr, hB_le, hB_un, hB_ok, NEWL1, hB_new, hB_ids, hB_shapes⟩ := hB
    rw [hB_ctr] at hrep
    have hBp : storeB p = store1 p := hB_un p (by omega) (Or.inl (by omega))
    have hanchor2 : anchorOk storeB p (some (f + tr.length)) := by
      show ∃ b, (storeB p).getLast? = some (f + tr.length, b)
      refine ⟨copy, ?_⟩
      rw [hBp, haw1, hzip, ← List.append_assoc,
        List.getLast?_append_of_ne_nil _ (by simp)]
      rfl
    have hC := hih3 ws2 f3 hrun2 storeB hB_ok (by omega) hanchor2 store2 ctr2 hrep
    obtain ⟨hC_ctr, hC_le, hC_un, hC_ok, NEWL2, hC_new, hC_ids, hC_shapes⟩ := hC
    have hcdata : copy.data = head.data := by
      rw [← hcopy]
      rfl
    have hckids : (blockShape copy).kids = [] := by
      rw [← hcopy, blockShape_mk]
      rfl
    have hshape : blockShape head = Tree.mk head.data (kids.map blockShape) :=
      blockShape_children_some head kids (trackedKids_eq_children head kids htk)
    refine ⟨hC_ctr, by omega, ?_, hC_ok,
      ((((List.range tr.length).map (f + ·)).zip tr) ++ [(f + tr.length, copy)]) ++ NEWL2,
      ?_, ?_, ?_⟩
    · intro q2 hq2 hd2
      have h1 : store2 q2 = storeB q2 := by
        rcases hd2 with hcase | hcase
        · exact hC_un q2 hq2 (Or.inl (by omega))
        · exact hC_un q2 hq2 (Or.inr hcase)
      have h2 : storeB q2 = store1 q2 := by
        rcases hd2 with hcase | hcase
        · exact hB_un q2 (by omega) (Or.inl (by omega))
        · exact hB_un q2 (by omega) (Or.inr (by omega))
      rw [h1, h2]
      exact haw3 q2 hq2
    · rw [hC_new, hBp, haw1, hzip, List.append_assoc]
    · intro e he
      obtain ⟨e1, e2⟩ := e
      rcases List.mem_append.mp he with h1e | h2e
      · rcases List.mem_append.mp h1e with hz | hsg
        · have hm := (List.of_mem_zip hz).1
          have hb := mem_range_map f tr.length e1 hm
          constructor
          · show f ≤ e1
            omega
          · show e1 < f3
            omega
        · have heq := List.mem_singleton.mp hsg
          obtain ⟨h1, h2⟩ := Prod.mk.injEq .. ▸ heq
          subst h1
          constructor
          · show f ≤ f + tr.length
            omega
          · show f + tr.length < f3
            omega
      · have hb := hC_ids (e1, e2) h2e
        have hb1 : f2 ≤ e1 := hb.1
        have hb2 : e1 < f3 := hb.2
        constructor
        · show f ≤ e1
          omega
        · show e1 < f3
          omega
    · intro fuel store3 hfuel hagree
      have hempty : ∀ i, f ≤ i → i < f + tr.length → store3 i = [] := by
        intro i h1 h2
        rw [hagree i (by omega) (by omega), hC_un i (by omega) (Or.inl (by omega)),
          hB_un i (by omega) (Or.inl (by omega)), haw3 i (by omega)]
        by_cases hnil : store i = []
        · exact hnil
        · exact absurd (hok.1 i hnil) (by omega)
      have hstore3hid : store3 (f + tr.length) = NEWL1 := by
        rw [hagree (f + tr.length) (by omega) (by omega),
          hC_un (f + tr.length) (by omega) (Or.inl (by omega)), hB_new,
          haw3 (f + tr.length) (by omega)]
        have hsnil : store (f + tr.length) = [] := by
          by_cases hnil : store (f + tr.length) = []
          · exact hnil
          · exact absurd (hok.1 (f + tr.length) hnil) (by omega)
        rw [hsnil, List.nil_append]
      obtain ⟨fuel1, rfl⟩ : ∃ fuel1, fuel = fuel1 + 1 := ⟨fuel - 1, by omega⟩
      have hreb : rebuild store3 (fuel1 + 1) (f + tr.length) = kids.map blockShape := by
        rw [rebuild_succ, hstore3hid]
        refine hB_shapes fuel1 store3 (by omega) ?_
        intro q2 h1 h2
        rw [hagree q2 (by omega) (by omega)]
        exact hC_un q2 (by omega) (Or.inl h2)
      have h1 := zip_shapes store3 (fuel1 + 1) ((List.range tr.length).map (f + ·)) tr
        (by simp) (fun i hi => by
          have hb := mem_range_map f tr.length i hi
          exact hempty i (by omega) (by omega))
      have h3 := hC_shapes (fuel1 + 1) store3 (by omega)
        (fun q2 hq1 hq2 => hagree q2 (by omega) hq2)
      simp only [List.map_append, List.map_cons, List.map_nil, List.append_assoc,
        List.singleton_append, List.cons_append, List.nil_append]
      rw [h1, h3, hcdata, hckids, hreb, List.nil_append, hshape]
  · -- shallow head reaching the 100-block limit: flush, continue after the anchor
    intro p a tr f head rest hd tranche1 hfull fresh1 created_ids after1 ih ws f2x hws
      store hok hp ha store2 ctr2 hrep
    have hdd : PageMaker.block_has_deep_children 0 head = false := by
      simpa using hd
    have hlen1 : tranche1.length = 100 := by simpa using hfull
    have hlen0 : (tr ++ [head]).length = 100 := hlen1
    have hlen : tr.length + 1 = 100 := by simpa using hlen0
    have hf1 : fresh1 = f + 100 := by
      show f + (tr ++ [head]).length = f + 100
      rw [hlen0]
    have ha1 : after1 = some (f + 99) := by
      show (match created_ids.getLast? with
        | some last => some last
        | Option.none => a) = some (f + 99)
      show (match (((List.range (tr ++ [head]).length).map (f + ·)).getLast?) with
        | some last => some last
        | Option.none => a) = some (f + 99)
      rw [show (tr ++ [head]).length = 99 + 1 by simp [List.length_append]; omega,
        getLast?_range_map]
    have hih := ih
    rw [ha1, hf1] at hih
    rw [append_loop_flush p a head rest tr f hdd hlen] at hws
    dsimp only at hws
    rcases hrun2 : PageMaker.append_loop p (some (f + 99)) rest [] (f + 100)
      with ⟨ws2, f3⟩
    rw [hrun2] at hws
    dsimp only at hws
    obtain ⟨hws1, hws2x⟩ := Prod.mk.injEq .. ▸ hws
    subst hws1
    subst hws2x
    rw [replay_cons] at hrep
    obtain ⟨haw2, haw1, haw3, haw4⟩ := applyWrite_spec store f p a (tr ++ [head]) hok hp ha
    rcases happ : applyWrite (store, f) ⟨p, a, tr ++ [head]⟩ with ⟨store1, g1⟩
    rw [happ] at hrep haw2 haw1 haw3 haw4
    dsimp only at haw2 haw1 haw3 haw4
    have hg1 : g1 = f + 100 := by omega
    subst hg1
    have hok1 : storeOk store1 (f + 100) := by
      rw [show f + 100 = f + (tr ++ [head]).length by omega]
      exact haw4
    rw [hlen0] at haw1
    have hzip : (((List.range 100).map (f + ·)).zip (tr ++ [head]))
        = (((List.range tr.length).map (f + ·)).zip tr) ++ [(f + 99, head)] := by
      rw [show (100 : Nat) = tr.length + 1 by omega,
        zip_assigned_concat f tr.length tr head rfl,
        show f + tr.length = f + 99 by omega]
    have hanchor : anchorOk store1 p (some (f + 99)) := by
      show ∃ b, (store1 p).getLast? = some (f + 99, b)
      refine ⟨head, ?_⟩
      rw [haw1, hzip, ← List.append_assoc,
        List.getLast?_append_of_ne_nil _ (by simp)]
      rfl
    have hC := hih ws2 f3 hrun2 store1 hok1 (by omega) hanchor store2 ctr2 hrep
    obtain ⟨hC_ctr, hC_le, hC_un, hC_ok, NEWL2, hC_new, hC_ids, hC_shapes⟩ := hC
    refine ⟨hC_ctr, by omega, ?_, hC_ok,
      (((List.range 100).map (f + ·)).zip (tr ++ [head])) ++ NEWL2, ?_, ?_, ?_⟩
    · intro q2 hq2 hd2
      have h1 : store2 q2 = store1 q2 := by
        rcases hd2 with hcase | hcase
        · exact hC_un q2 hq2 (Or.inl (by omega))
        · exact hC_un q2 hq2 (Or.inr hcase)
      rw [h1]
      exact haw3 q2 hq2
    · rw [hC_new, haw1, List.append_assoc]
    · intro e he
      obtain ⟨e1, e2⟩ := e
      rcases List.mem_append.mp he with h1e | h2e
      · have hm := (List.of_mem_zip h1e).1
        have hb := mem_range_map f 100 e1 hm
        constructor
        · show f ≤ e1
          omega
        · show e1 < f3
          omega
      · have hb := hC_ids (e1, e2) h2e
        have hb1 : f + 100 ≤ e1 := hb.1
        have hb2 : e1 < f3 := hb.2
        constructor
        · show f ≤ e1
          omega
        · show e1 < f3
          omega
    · intro fuel store3 hfuel hagree
      have hempty : ∀ i ∈ (List.range 100).map (f + ·), store3 i = [] := by
        intro i hi
        have hb := mem_range_map f 100 i hi
        rw [hagree i (by omega) (by omega), hC_un i (by omega) (Or.inl (by omega)),
          haw3 i (by omega)]
        by_cases hnil : store i = []
        · exact hnil
        · exact absurd (hok.1 i hnil) (by omega)
      have h1 := zip_shapes store3 fuel ((List.range 100).map (f + ·)) (tr ++ [head])
        (by simp [hlen0]) hempty
      have h3 := hC_shapes fuel store3 (by omega)
        (fun q2 hq1 hq2 => hagree q2 (by omega) hq2)
      rw [List.nil_append] at h3
      rw [List.map_append, h1, h3]
      simp only [List.map_append, List.map_cons, List.map_nil, List.append_assoc,
        List.singleton_append, List.cons_append, List.nil_append]
  · -- shallow head below the limit: extend the tranche
    intro p a tr f head rest hd tranche1 hnfull ih ws f2 hws store hok hp ha
      store2 ctr2 hrep
    have hdd : PageMaker.block_has_deep_children 0 head = false := by
      simpa using hd
    have hlen : tr.length + 1 ≠ 100 := by
      intro hcontra
      apply hnfull
      show ((tr ++ [head]).length == 100) = true
      simp only [List.length_append, List.length_cons, List.length_nil, beq_iff_eq]
      omega
    rw [append_loop_shallow p a head rest tr f hdd hlen] at hws
    have htr1 : tranche1 = tr ++ [head] := rfl
    have hih := ih
    rw [htr1] at hih
    have hx := hih ws f2 hws store hok hp ha store2 ctr2 hrep
    simpa only [List.append_assoc, List.singleton_append] using hx


/-- C2: assuming every append call succeeds and hands back one fresh
identifier per submitted block in submission order (the success-mode id
counter of the embedding), replaying the writes issued by
`append_children` in order against a model of the remote store
reconstructs a tree isomorphic to the input block sequence: rebuilding
the tree under the root from the replayed store recovers exactly the
shapes of the input blocks, children attached under the identifier
assigned to their parent and siblings in original order. -/
theorem append_children_reconstructs (blocks : List Block) (rootId fresh : Nat)
    (h : rootId < fresh) :
    rebuild
      (replay (PageMaker.append_children rootId Option.none blocks fresh).1
        (emptyStore, fresh)).1
      ((PageMaker.append_children rootId Option.none blocks fresh).2 - fresh + 1)
      rootId
      = blocks.map blockShape := by
  rcases hrun : PageMaker.append_children rootId Option.none blocks fresh with ⟨ws, fz⟩
  dsimp only
  rcases hrep : replay ws (emptyStore, fresh) with ⟨storeZ, ctrZ⟩
  dsimp only
  have hok : storeOk emptyStore fresh :=
    ⟨fun _ hq => absurd rfl hq, fun _ e he => absurd he (List.not_mem_nil e),
     fun _ => List.chain'_nil⟩
  have hx := append_replay_aux.1 rootId Option.none blocks fresh ws fz hrun
    emptyStore hok h trivial storeZ ctrZ hrep
  obtain ⟨hctr, hle, hun, hokZ, NEWL, hnew, hids, hshapes⟩ := hx
  have hnew2 : storeZ rootId = NEWL := by
    rw [hnew]
    rfl
  rw [rebuild_succ, hnew2]
  exact hshapes (fz - fresh) storeZ (Nat.le_refl _) (fun _ _ _ => rfl)

/-- Witness for C2 at a concrete input: one paragraph block with a single
nested child, root identifier 0, first fresh identifier 1. -/
theorem append_children_reconstructs_witness :
    (0 : Nat) < 1 ∧
    rebuild
      (replay (PageMaker.append_children 0 Option.none
          [Block.mk Option.none Option.none BlockData.divider Option.none] 1).1
        (emptyStore, 1)).1
      ((PageMaker.append_children 0 Option.none
          [Block.mk Option.none Option.none BlockData.divider Option.none] 1).2 - 1 + 1)
      0
      = [Block.mk Option.none Option.none BlockData.divider Option.none].map blockShape :=
  ⟨by decide,
   append_children_reconstructs
     [Block.mk Option.none Option.none BlockData.divider Option.none] 0 1 (by decide)⟩

end Md2Notion
end Nuc2Not
